import Mathlib

/-!
Shallow embedding of the proxmox-affinity topology-detection and
affinity-generation engine (Go packages `internal/topology` and
`internal/affinity`), together with proofs about the embedded code.

Conventions of the embedding:
* Go `int` is modelled as `Int`; Go integer division (`/`, which truncates
  toward zero) is modelled as `Int.tdiv`.
* Go slices of ints are `List Int`; `sort.Ints` is modelled as `sortInts`
  (any correct sort of an int slice yields the unique `≤`-sorted permutation).
* Go nil-able pointers are modelled as `Option`.
* The time-seeded shuffle of `generateRandom` is modelled by passing the
  shuffled index list as an explicit parameter.
* Functions returning `(T, error)` are modelled as `Except String T` (the
  error message string) or, for the sysfs layer, `Except GoError T`.
-/

namespace topology

/-- Go `sort.Ints`: sorts an int slice in nondecreasing order. -/
def sortInts (l : List Int) : List Int :=
  List.insertionSort (· ≤ ·) l

/-- Helper of `dedupeSorted` tracking the previously kept value (`last`). -/
def dedupeSortedAux (last : Int) : List Int → List Int
  | [] => []
  | v :: rest =>
    if v = last then dedupeSortedAux last rest
    else v :: dedupeSortedAux v rest

/-- Go `dedupeSorted` (identical in `internal/topology` and
`internal/affinity`): removes adjacent duplicates; the Go loop starts with
`last := values[0] - 1`, which never equals `values[0]`, so the first
element is always kept. -/
def dedupeSorted : List Int → List Int
  | [] => []
  | v :: rest => v :: dedupeSortedAux v rest

/-- Go `type CoreType string` with its three constant values. -/
inductive CoreType where
  | performance
  | efficiency
  | unknown
deriving DecidableEq, Repr

/-- Go `type Architecture string`. -/
abbrev Architecture := String

def ArchAMD : Architecture := "amd"

def ArchIntelHybrid : Architecture := "intel_hybrid"

def ArchGeneric : Architecture := "generic"

/-- Go `topology.CPUInfo` (per-logical-CPU record). The Go field `CoreType`
keeps its name; `Type`-like fields do not occur here. -/
structure CPUInfo where
  ID : Int
  PackageID : Int
  CoreID : Int
  ClusterID : Int
  DieID : Int
  L3CacheID : Int
  ThreadSiblings : List Int
  IsFirstThread : Bool
  CoreType : CoreType
  Capacity : Int
deriving DecidableEq, Repr

/-- Go `topology.CoreGroup`. The Go field `Type` is named `typ` here
(`Type` is a Lean keyword). -/
structure CoreGroup where
  ID : Int
  PackageID : Int
  typ : CoreType
  Name : String
  L3CacheID : Int
  PhysicalCPUs : List Int
  AllCPUs : List Int
deriving DecidableEq, Repr

/-- A zero-valued group, standing in for Go's out-of-range slice access
default; only ever used behind bounds checks. -/
def emptyCoreGroup : CoreGroup :=
  { ID := 0, PackageID := 0, typ := CoreType.unknown, Name := "",
    L3CacheID := 0, PhysicalCPUs := [], AllCPUs := [] }

/-- Go `topology.Package`. -/
structure Package where
  ID : Int
  CoreGroups : List CoreGroup
deriving DecidableEq, Repr

/-- Go `topology.CPUTopology`. -/
structure CPUTopology where
  Architecture : Architecture
  TotalCPUs : Int
  TotalCores : Int
  HasSMT : Bool
  Packages : List Package
  CoreGroups : List CoreGroup
  DetectMethod : String
deriving DecidableEq, Repr

/-- Go method `CPUTopology.GetPCoresCPUs`: physical cpus of all
performance-typed groups, in group order. -/
def CPUTopology.GetPCoresCPUs (t : CPUTopology) : List Int :=
  (t.CoreGroups.filter (fun g => g.typ == CoreType.performance)).flatMap
    (fun g => g.PhysicalCPUs)

/-- Go method `CPUTopology.GetECoresCPUs`. -/
def CPUTopology.GetECoresCPUs (t : CPUTopology) : List Int :=
  (t.CoreGroups.filter (fun g => g.typ == CoreType.efficiency)).flatMap
    (fun g => g.PhysicalCPUs)

/-- Go constant `defaultCoresPerCCD = 8` in `internal/topology`. -/
def defaultCoresPerCCD : Int := 8

/-- The group key computed inside `groupByCCD`'s switch on `method`:
`l3_cache` uses the L3 id, `cluster_id` the cluster id, `die_id` the die
id, and the default case divides `core_id` by `defaultCoresPerCCD`
(the Go guard `defaultCoresPerCCD > 0` is satisfied by the constant 8). -/
def ccdKeyOf (method : String) (cpu : CPUInfo) : Int :=
  if method = "l3_cache" then cpu.L3CacheID
  else if method = "cluster_id" then cpu.ClusterID
  else if method = "die_id" then cpu.DieID
  else cpu.CoreID.tdiv defaultCoresPerCCD

/-- The `(package id, ccd id)` bucket key of `groupByCCD`. -/
structure GroupKey where
  pkgID : Int
  ccdID : Int
deriving DecidableEq, Repr

/-- The distinct bucket keys of `groupByCCD` (the Go map's key set; its
iteration order is irrelevant because the buckets are sorted afterwards). -/
def groupKeys (cpus : List CPUInfo) (method : String) : List GroupKey :=
  (cpus.map (fun c => GroupKey.mk c.PackageID (ccdKeyOf method c))).dedup

/-- The bucket that `groupByCCD` accumulates for one key: members are the
cpus with that key in input order, the group's `L3CacheID` is the first
member's (the member that created the map entry), `AllCPUs` collects all
member ids and `PhysicalCPUs` the first-thread member ids, both sorted and
deduplicated at the end of the Go function. -/
def bucketFor (cpus : List CPUInfo) (method : String) (k : GroupKey) : CoreGroup :=
  let members := cpus.filter
    (fun c => c.PackageID == k.pkgID && ccdKeyOf method c == k.ccdID)
  { ID := k.ccdID
    PackageID := k.pkgID
    typ := CoreType.unknown
    Name := "CCD " ++ toString k.ccdID
    L3CacheID := ((members.head?.map (fun c => c.L3CacheID)).getD 0)
    PhysicalCPUs :=
      dedupeSorted (sortInts ((members.filter (fun c => c.IsFirstThread)).map (fun c => c.ID)))
    AllCPUs := dedupeSorted (sortInts (members.map (fun c => c.ID))) }

/-- The comparison used by `groupByCCD`'s and `sortedCoreGroups`'
`sort.Slice` calls, as a total preorder: by package id, then group id. -/
def cgLE (a b : CoreGroup) : Prop :=
  a.PackageID < b.PackageID ∨ (a.PackageID = b.PackageID ∧ a.ID ≤ b.ID)

instance : DecidableRel cgLE := fun a b => by
  unfold cgLE; infer_instance

instance : IsTotal CoreGroup cgLE where
  total a b := by
    unfold cgLE
    rcases lt_trichotomy a.PackageID b.PackageID with h | h | h
    · exact Or.inl (Or.inl h)
    · omega
    · exact Or.inr (Or.inl h)

instance : IsTrans CoreGroup cgLE where
  trans a b c hab hbc := by
    unfold cgLE at *
    omega

/-- Model of Go `sort.Slice(list, ...)` on core groups (keys are unique in
every use, so the sorted output is uniquely determined). -/
def sortGroups (l : List CoreGroup) : List CoreGroup :=
  List.insertionSort cgLE l

/-- The renumbering pass at the end of `groupByCCD`: `pkgCCDCount` is the
Go map from package id to the next sequential id, modelled as a function
that is 0 everywhere initially. -/
def renumberGroups (cnt : Int → Int) : List CoreGroup → List CoreGroup
  | [] => []
  | g :: gs =>
    let newID := cnt g.PackageID
    { g with ID := newID, Name := "CCD " ++ toString newID } ::
      renumberGroups (fun p => if p = g.PackageID then newID + 1 else cnt p) gs

/-- Go `groupByCCD`: bucket cpus by `(package id, ccd key)`, sort the
buckets' member lists, sort the groups by `(package id, id)` and renumber
them sequentially starting at 0 within each package. -/
def groupByCCD (cpus : List CPUInfo) (method : String) : List CoreGroup :=
  renumberGroups (fun _ => 0)
    (sortGroups ((groupKeys cpus method).map (bucketFor cpus method)))

/-- The classification applied to each cpu by `groupByIntelCoreType`:
performance-typed cpus go to the P group, efficiency-typed to the E group,
and unknown-typed cpus go to the P group exactly when they have more than
one thread sibling. -/
def intelIsPCore (c : CPUInfo) : Bool :=
  c.CoreType == CoreType.performance ||
    (!(c.CoreType == CoreType.efficiency) && c.ThreadSiblings.length > 1)

/-- The package id both Intel groups end up with: it starts at the zero
value 0 and is raised to every member's package id (so it is the maximum
of 0 and all package ids). -/
def intelMaxPackageID (cpus : List CPUInfo) : Int :=
  cpus.foldl (fun acc c => if acc < c.PackageID then c.PackageID else acc) 0

/-- The cpus routed to the P-cores group by `groupByIntelCoreType`'s
classification chain, in input order. -/
def intelPMembers (cpus : List CPUInfo) : List CPUInfo :=
  cpus.filter intelIsPCore

/-- The cpus routed to the E-cores group. -/
def intelEMembers (cpus : List CPUInfo) : List CPUInfo :=
  cpus.filter (fun c => !intelIsPCore c)

/-- Go `groupByIntelCoreType`: distributes cpus over a P-cores and an
E-cores group, sorts each group's id lists, and drops a group whose
physical-cpu list is empty. -/
def groupByIntelCoreType (cpus : List CPUInfo) : List CoreGroup :=
  let pMembers := intelPMembers cpus
  let eMembers := intelEMembers cpus
  let pkg := intelMaxPackageID cpus
  let pCores : CoreGroup :=
    { ID := 0, PackageID := pkg, typ := CoreType.performance, Name := "P-Cores",
      L3CacheID := -1,
      PhysicalCPUs := sortInts ((pMembers.filter (fun c => c.IsFirstThread)).map (fun c => c.ID)),
      AllCPUs := sortInts (pMembers.map (fun c => c.ID)) }
  let eCores : CoreGroup :=
    { ID := 1, PackageID := pkg, typ := CoreType.efficiency, Name := "E-Cores",
      L3CacheID := -1,
      PhysicalCPUs := sortInts ((eMembers.filter (fun c => c.IsFirstThread)).map (fun c => c.ID)),
      AllCPUs := sortInts (eMembers.map (fun c => c.ID)) }
  (if pCores.PhysicalCPUs.length > 0 then [pCores] else []) ++
    (if eCores.PhysicalCPUs.length > 0 then [eCores] else [])

/-- Go `buildGenericTopology`: one catch-all group holding every logical
cpu; its Go error return is always nil, so the model returns the value. -/
def buildGenericTopology (infos : List CPUInfo) : CPUTopology :=
  let totalCPUs : Int := infos.length
  let totalCores : Int := (infos.filter (fun c => c.IsFirstThread)).length
  let coreGroup : CoreGroup :=
    { ID := 0, PackageID := 0, typ := CoreType.unknown, Name := "All Cores",
      L3CacheID := -1,
      PhysicalCPUs := sortInts ((infos.filter (fun c => c.IsFirstThread)).map (fun c => c.ID)),
      AllCPUs := sortInts (infos.map (fun c => c.ID)) }
  { Architecture := ArchGeneric
    TotalCPUs := totalCPUs
    TotalCores := totalCores
    HasSMT := totalCores < totalCPUs
    Packages := [{ ID := 0, CoreGroups := [coreGroup] }]
    CoreGroups := [coreGroup]
    DetectMethod := "generic" }

/-- Go `detectCCDMethod`: picks the grouping signal. When `hasL3` stays
true the Go loop has collected every cpu's L3 id into `l3Values`, so the
distinct-value count equals the dedup length of all L3 ids. -/
def detectCCDMethod (cpus : List CPUInfo) : String :=
  if cpus.length = 0 then "inferred"
  else
    let hasL3 := cpus.all (fun c => 0 ≤ c.L3CacheID)
    let l3Count := ((cpus.map (fun c => c.L3CacheID)).dedup).length
    if hasL3 && l3Count > 1 then "l3_cache"
    else if cpus.all (fun c => 0 ≤ c.ClusterID) then "cluster_id"
    else if cpus.all (fun c => 0 ≤ c.DieID) then "die_id"
    else "inferred"

/-- Go `detectCoreType` (its `cpuID` and `siblings` parameters are unused
by the source body). -/
def detectCoreType (cpuID : Int) (capacity : Int) (siblings : List Int) : CoreType :=
  if 1000 ≤ capacity then CoreType.performance
  else if 0 < capacity ∧ capacity < 900 then CoreType.efficiency
  else CoreType.unknown

/-- Go `error` values arising in the sysfs read layer: `notExist` is an
error satisfying `os.IsNotExist`, `permission` one satisfying
`os.IsPermission` / `errors.Is(err, os.ErrPermission)`, `other` any other
read or parse failure, and `topoUnavailable` is the wrap
`fmt.Errorf("%w: %v", ErrTopologyUnavailable, err)` applied in `Detect`. -/
inductive GoError where
  | notExist
  | permission
  | other (msg : String)
  | topoUnavailable (inner : GoError)
deriving DecidableEq, Repr

/-- The per-CPU slice of the sysfs filesystem that `readCPUInfo` touches,
modelled as an environment of read outcomes: `topoFile cpu elem` is
`ReadIntFile` on `cpuN/topology/<elem>`, `siblingsFile` is `ReadListFile`
on `thread_siblings_list`, `cacheDirs` is the `os.ReadDir` of `cpuN/cache`
(the index numbers found), `cacheLevel`/`cacheID` are `ReadIntFile` on
`cache/indexK/level` and `cache/indexK/id`, and `capacityFile` is
`ReadIntFile` on the cpu-capacity path. -/
structure SysFS where
  topoFile : Int → String → Except GoError Int
  siblingsFile : Int → Except GoError (List Int)
  cacheDirs : Int → Except GoError (List Nat)
  cacheLevel : Int → Nat → Except GoError Int
  cacheID : Int → Nat → Except GoError Int
  capacityFile : Int → Except GoError Int

/-- Go `readOptionalInt`: a not-exist failure yields the default, any
other failure propagates. -/
def readOptionalInt (r : Except GoError Int) (defaultValue : Int) : Except GoError Int :=
  match r with
  | .ok v => .ok v
  | .error e => if e = GoError.notExist then .ok defaultValue else .error e

/-- Go `readOptionalList`: same policy for list-valued files. -/
def readOptionalList (r : Except GoError (List Int)) (defaultValue : List Int) :
    Except GoError (List Int) :=
  match r with
  | .ok v => .ok v
  | .error e => if e = GoError.notExist then .ok defaultValue else .error e

/-- A Go `(int, error)` pair as returned by `ReadIntFile`: on failure the
int result is the zero value 0 alongside the error. -/
def readIntPair (r : Except GoError Int) : Int × Option GoError :=
  match r with
  | .ok v => (v, none)
  | .error e => (0, some e)

/-- The scan inside `ReadL3CacheID` over the cache index entries: an entry
whose level read fails is skipped; the first level-3 entry's id file is
read and returned (as value and error of `ReadIntFile`); if no level-3
entry exists the result is `(-1, error)`. -/
def readL3Scan (fs : SysFS) (cpu : Int) : List Nat → Int × Option GoError
  | [] => (-1, some (GoError.other "L3 cache not found"))
  | idx :: rest =>
    match fs.cacheLevel cpu idx with
    | .error _ => readL3Scan fs cpu rest
    | .ok level =>
      if level = 3 then readIntPair (fs.cacheID cpu idx)
      else readL3Scan fs cpu rest

/-- Go `ReadL3CacheID`: list the cache directory, then scan for the
level-3 entry. A directory-listing failure yields `(-1, err)`. -/
def ReadL3CacheID (fs : SysFS) (cpu : Int) : Int × Option GoError :=
  match fs.cacheDirs cpu with
  | .error e => (-1, some e)
  | .ok entries => readL3Scan fs cpu entries

/-- Go `readCPUCapacity`: best effort, 0 on any failure. -/
def readCPUCapacity (fs : SysFS) (cpu : Int) : Int :=
  match fs.capacityFile cpu with
  | .ok v => v
  | .error _ => 0

/-- Go `readCPUInfo`: reads the five topology attributes in order
(package id, core id, cluster id, die id, sibling list), aborting on the
first non-not-exist failure; the L3-cache read's error is discarded
(`l3CacheID, _ := ReadL3CacheID(cpuID)`), and capacity is best effort. -/
def readCPUInfo (fs : SysFS) (cpuID : Int) : Except GoError CPUInfo :=
  match readOptionalInt (fs.topoFile cpuID "physical_package_id") 0 with
  | .error e => .error e
  | .ok packageID =>
    match readOptionalInt (fs.topoFile cpuID "core_id") cpuID with
    | .error e => .error e
    | .ok coreID =>
      match readOptionalInt (fs.topoFile cpuID "cluster_id") (-1) with
      | .error e => .error e
      | .ok clusterID =>
        match readOptionalInt (fs.topoFile cpuID "die_id") (-1) with
        | .error e => .error e
        | .ok dieID =>
          let l3CacheID := (ReadL3CacheID fs cpuID).1
          match readOptionalList (fs.siblingsFile cpuID) [cpuID] with
          | .error e => .error e
          | .ok siblings₀ =>
            let siblings := dedupeSorted (sortInts siblings₀)
            let capacity := readCPUCapacity fs cpuID
            let coreType := detectCoreType cpuID capacity siblings
            .ok
              { ID := cpuID
                PackageID := packageID
                CoreID := coreID
                ClusterID := clusterID
                DieID := dieID
                L3CacheID := l3CacheID
                ThreadSiblings := siblings
                IsFirstThread := siblings.length == 0 || cpuID == siblings.headD cpuID
                CoreType := coreType
                Capacity := capacity }

/-- The per-CPU read loop of `Detect`: a permission error from
`readCPUInfo` is returned unchanged, any other error is wrapped as
topology-unavailable; on success all records are collected in order. -/
def detectReadCPUs (fs : SysFS) : List Int → Except GoError (List CPUInfo)
  | [] => .ok []
  | id :: rest =>
    match readCPUInfo fs id with
    | .error e =>
      if e = GoError.permission then .error e
      else .error (GoError.topoUnavailable e)
    | .ok info =>
      match detectReadCPUs fs rest with
      | .error e => .error e
      | .ok infos => .ok (info :: infos)

end topology

namespace affinity

open topology

/-- Go `type Strategy string` with the constants of the affinity package. -/
abbrev Strategy := String

def StrategySingleCCD : Strategy := "single-ccd"

def StrategyDistributed : Strategy := "distributed"

def StrategySequential : Strategy := "sequential"

def StrategyRandom : Strategy := "random"

def StrategyManual : Strategy := "manual"

/-- Modelled from the spec: the Intel-hybrid strategy tags
(`StrategyPCoresOnly`, `StrategyECoresOnly`, `StrategyAllCores`) are used
by the generator source but their constant declarations are not among the
provided source files; their exact string values are immaterial to every
claim, only their identity as distinct tags. -/
def StrategyPCoresOnly : Strategy := "p-cores-only"

/-- Modelled from the spec: see `StrategyPCoresOnly`. -/
def StrategyECoresOnly : Strategy := "e-cores-only"

/-- Modelled from the spec: see `StrategyPCoresOnly`. -/
def StrategyAllCores : Strategy := "all-cores"

/-- Go `affinity.Option` (named `AffinityOption` here because `Option` is
taken by Lean); zero values of the Go struct are `[]`, `""`, `0`. -/
structure AffinityOption where
  Strategy : Strategy
  Name : String
  Description : String
  CPUs : List Int
  AffinityStr : String
  CCDsUsed : Int
deriving DecidableEq, Repr

/-- Go `affinity.Request`; the `*topology.CPUTopology` pointer is an
`Option`. -/
structure Request where
  CoresNeeded : Int
  IncludeSMT : Bool
  Topology : Option CPUTopology
deriving DecidableEq, Repr

/-- The physical-core requirement computed identically at the top of
`Generate` and `GenerateManual`: halved (rounding up) when SMT inclusion
is requested and the topology has SMT. -/
def physicalCoresNeededFor (r : Request) (topo : CPUTopology) : Int :=
  if r.IncludeSMT && topo.HasSMT then (r.CoresNeeded + 1).tdiv 2
  else r.CoresNeeded

/-- The sibling map built inside `expandToVCPUs`, as an association list
in build order: for each group, the physical cpu at position `i` maps to
itself plus, when position `i + numPhysical` exists in the group's
`AllCPUs`, the logical id at that position. Go map writes overwrite, so
lookups must take the last matching entry (see `expandToVCPUs`). -/
def siblingEntries (topo : CPUTopology) : List (Int × List Int) :=
  topo.CoreGroups.flatMap (fun cg =>
    let numPhysical := cg.PhysicalCPUs.length
    cg.PhysicalCPUs.enum.map (fun ip =>
      (ip.2,
        if ip.1 + numPhysical < cg.AllCPUs.length then
          [ip.2, cg.AllCPUs.getD (ip.1 + numPhysical) 0]
        else [ip.2])))

/-- Go `expandToVCPUs`: without SMT inclusion (or without SMT in the
topology) the physical selection is returned sorted; otherwise each
physical cpu is replaced by its sibling list from the `physicalToSiblings`
map (itself when absent), and the union is sorted and deduplicated.
The reversed lookup realises the Go map's overwrite semantics. -/
def expandToVCPUs (physicalCores : List Int) (includeSMT : Bool) (topo : CPUTopology) :
    List Int :=
  if !includeSMT || !topo.HasSMT then sortInts physicalCores
  else
    let entries := (siblingEntries topo).reverse
    let result := physicalCores.flatMap (fun phys =>
      match entries.lookup phys with
      | some siblings => siblings
      | none => [phys])
    dedupeSorted (sortInts result)

/-- Go `formatRange`. -/
def formatRange (start e : Int) : String :=
  if start = e then toString start
  else toString start ++ "-" ++ toString e

/-- The run-accumulating loop inside `FormatCPUs`: `start` and `prev`
delimit the current maximal consecutive run. -/
def formatRuns (start prev : Int) : List Int → List String
  | [] => [formatRange start prev]
  | current :: rest =>
    if current = prev + 1 then formatRuns start current rest
    else formatRange start prev :: formatRuns current current rest

/-- Go `FormatCPUs`: sort, deduplicate, then join the maximal consecutive
runs with commas. -/
def FormatCPUs (cpus : List Int) : String :=
  match dedupeSorted (sortInts cpus) with
  | [] => ""
  | s :: rest => String.intercalate "," (formatRuns s s rest)

/-- Go `allPhysicalCPUsSorted`. -/
def allPhysicalCPUsSorted (topo : CPUTopology) : List Int :=
  dedupeSorted (sortInts (topo.CoreGroups.flatMap (fun cg => cg.PhysicalCPUs)))

/-- Go `sortedCoreGroups` (`sort.Slice` by package id then group id). -/
def sortedCoreGroups (coreGroups : List CoreGroup) : List CoreGroup :=
  sortGroups coreGroups

/-- Go `countCCDsUsedByPhysical`: the number of groups containing at least
one of the selected physical cpus. -/
def countCCDsUsedByPhysical (physicalCores : List Int) (topo : CPUTopology) : Int :=
  (topo.CoreGroups.countP
    (fun cg => cg.PhysicalCPUs.any (fun p => physicalCores.contains p)) : Int)

/-- The `for ... { if len(selected) >= needed break; selected = append... }`
pattern shared by several generators: append from `l` onto `acc` until the
accumulated length reaches `needed`. -/
def takeUpTo (needed : Int) (acc : List Int) : List Int → List Int
  | [] => acc
  | p :: ps =>
    if needed ≤ (acc.length : Int) then acc
    else takeUpTo needed (acc ++ [p]) ps

/-- Go `generateSingleCCD`: the first group with enough physical cores
supplies its first `physicalCoresNeeded` of them; otherwise the option is
returned with an empty cpu set and an Unavailable description. -/
def generateSingleCCD (req : Request) (topo : CPUTopology) (physicalCoresNeeded : Int) :
    AffinityOption :=
  let base : AffinityOption :=
    { Strategy := StrategySingleCCD, Name := "Single CCD",
      Description := "All cores from one CCD (best cache locality)",
      CPUs := [], AffinityStr := "", CCDsUsed := 0 }
  match topo.CoreGroups.find?
      (fun cg => physicalCoresNeeded ≤ (cg.PhysicalCPUs.length : Int)) with
  | some cg =>
    { base with
      CPUs := expandToVCPUs (cg.PhysicalCPUs.take physicalCoresNeeded.toNat)
        req.IncludeSMT topo,
      CCDsUsed := 1 }
  | none =>
    { base with
      Description :=
        "Unavailable: no single CCD has " ++ toString physicalCoresNeeded ++ " cores" }

/-- One pass of `generateDistributed`'s inner `for i, cg := range` loop:
walks the groups' remaining physical lists (`gs`), taking the head of each
until `needed` is reached; returns the remaining lists, the grown
selection, the updated used-group index set and whether progress was made
in this pass. `i` is the running group index. -/
def distPass (needed : Int) :
    List (List Int) → List Int → List Nat → Nat →
      List (List Int) × List Int × List Nat × Bool
  | [], acc, used, _ => ([], acc, used, false)
  | g :: gs, acc, used, i =>
    if needed ≤ (acc.length : Int) then (g :: gs, acc, used, false)
    else
      match g with
      | [] =>
        let r := distPass needed gs acc used (i + 1)
        ([] :: r.1, r.2.1, r.2.2.1, r.2.2.2)
      | p :: rest =>
        let used' := if i ∈ used then used else used ++ [i]
        let r := distPass needed gs (acc ++ [p]) used' (i + 1)
        (rest :: r.1, r.2.1, r.2.2.1, true)

/-- Total length of the groups' remaining physical lists. -/
def sumLens (gs : List (List Int)) : Nat :=
  (gs.map List.length).sum

theorem distPass_sum_le (needed : Int) (gs : List (List Int)) (acc : List Int)
    (used : List Nat) (i : Nat) :
    sumLens (distPass needed gs acc used i).1 ≤ sumLens gs := by
  induction gs generalizing acc used i with
  | nil => simp [distPass]
  | cons g gs ih =>
    by_cases h : needed ≤ (acc.length : Int)
    · simp [distPass, h]
    · cases g with
      | nil =>
        have := ih acc used (i + 1)
        simp only [distPass, if_neg h]
        simpa [sumLens] using this
      | cons p rest =>
        simp only [distPass, if_neg h]
        have := ih (acc ++ [p]) (if i ∈ used then used else used ++ [i]) (i + 1)
        simp only [sumLens, List.map_cons, List.sum_cons, List.length_cons] at *
        omega

theorem distPass_sum_lt (needed : Int) (gs : List (List Int)) (acc : List Int)
    (used : List Nat) (i : Nat)
    (h : (distPass needed gs acc used i).2.2.2 = true) :
    sumLens (distPass needed gs acc used i).1 < sumLens gs := by
  induction gs generalizing acc used i with
  | nil => simp [distPass] at h
  | cons g gs ih =>
    by_cases hlen : needed ≤ (acc.length : Int)
    · simp [distPass, hlen] at h
    · cases g with
      | nil =>
        simp only [distPass, if_neg hlen] at h ⊢
        have := ih acc used (i + 1) h
        simpa [sumLens] using this
      | cons p rest =>
        simp only [distPass, if_neg hlen]
        have := distPass_sum_le needed gs (acc ++ [p])
          (if i ∈ used then used else used ++ [i]) (i + 1)
        simp only [sumLens, List.map_cons, List.sum_cons, List.length_cons] at *
        omega

/-- The outer `for len(selectedPhysical) < physicalCoresNeeded` loop of
`generateDistributed`: repeat passes while progress is made. -/
def distLoop (needed : Int) (gs : List (List Int)) (acc : List Int) (used : List Nat) :
    List Int × List Nat :=
  if needed ≤ (acc.length : Int) then (acc, used)
  else
    let r := distPass needed gs acc used 0
    if h : r.2.2.2 = true then distLoop needed r.1 r.2.1 r.2.2.1
    else (r.2.1, r.2.2.1)
termination_by sumLens gs
decreasing_by exact distPass_sum_lt needed gs acc used 0 h

/-- Go `generateDistributed`: round-robin one physical core at a time
across the groups sorted by (package, id). -/
def generateDistributed (req : Request) (topo : CPUTopology) (physicalCoresNeeded : Int) :
    AffinityOption :=
  let coreGroups := sortedCoreGroups topo.CoreGroups
  let r := distLoop physicalCoresNeeded (coreGroups.map (fun cg => cg.PhysicalCPUs)) [] []
  { Strategy := StrategyDistributed, Name := "Distributed",
    Description := "Spread cores across CCDs",
    CPUs := expandToVCPUs r.1 req.IncludeSMT topo,
    AffinityStr := "", CCDsUsed := (r.2.length : Int) }

/-- Go `generateSequential`: the first `physicalCoresNeeded` entries of
the flat sorted physical-cpu list. -/
def generateSequential (req : Request) (topo : CPUTopology) (physicalCoresNeeded : Int) :
    AffinityOption :=
  let allPhysical := allPhysicalCPUsSorted topo
  let selectedPhysical :=
    if physicalCoresNeeded < (allPhysical.length : Int) then
      allPhysical.take physicalCoresNeeded.toNat
    else allPhysical
  { Strategy := StrategySequential, Name := "Sequential",
    Description := "First N cores from consecutive CCDs",
    CPUs := expandToVCPUs selectedPhysical req.IncludeSMT topo,
    AffinityStr := "",
    CCDsUsed := countCCDsUsedByPhysical selectedPhysical topo }

/-- The group count `generateRandom` and `generateManualPlaceholder`
compute: `ceil(needed / coresPerCCD)` capped at the group count. -/
def randMinCCDs (topo : CPUTopology) (physicalCoresNeeded : Int) : Int :=
  match topo.CoreGroups with
  | [] => 0
  | g0 :: _ =>
    let coresPerCCD : Int := g0.PhysicalCPUs.length
    let m := (physicalCoresNeeded + coresPerCCD - 1).tdiv coresPerCCD
    if (topo.CoreGroups.length : Int) < m then topo.CoreGroups.length else m

/-- Sort for the shuffled index list (`sort.Ints(selectedCCDs)`). -/
def sortNats (l : List Nat) : List Nat :=
  List.insertionSort (· ≤ ·) l

/-- The selected group indices of `generateRandom`: the first
`randMinCCDs` entries of the shuffled index list, re-sorted. -/
def randSelectedCCDs (topo : CPUTopology) (physicalCoresNeeded : Int)
    (shuffled : List Nat) : List Nat :=
  sortNats (shuffled.take (randMinCCDs topo physicalCoresNeeded).toNat)

/-- The `for _, ccdIdx := range selectedCCDs` loop shared by
`generateRandom` (no range check: the indices come from a permutation of
the valid range). -/
def randTake (groups : List CoreGroup) (needed : Int) :
    List Nat → List Int → List Int
  | [], acc => acc
  | idx :: rest, acc =>
    randTake groups needed rest
      (takeUpTo needed acc ((groups.getD idx emptyCoreGroup).PhysicalCPUs))

/-- The physical selection of `generateRandom` for a given shuffle
outcome. -/
def randSelectedPhysical (topo : CPUTopology) (physicalCoresNeeded : Int)
    (shuffled : List Nat) : List Int :=
  randTake topo.CoreGroups physicalCoresNeeded
    (randSelectedCCDs topo physicalCoresNeeded shuffled) []

/-- Go `generateRandom`, with the time-seeded shuffle's outcome passed in
as `shuffled` (in the program it is a pseudorandom permutation of the
group indices). An empty group list returns the bare option. -/
def generateRandom (req : Request) (topo : CPUTopology) (physicalCoresNeeded : Int)
    (shuffled : List Nat) : AffinityOption :=
  let base : AffinityOption :=
    { Strategy := StrategyRandom, Name := "Random",
      Description := "Randomly select from minimum CCDs needed",
      CPUs := [], AffinityStr := "", CCDsUsed := 0 }
  match topo.CoreGroups with
  | [] => base
  | _ :: _ =>
    { base with
      CPUs := expandToVCPUs (randSelectedPhysical topo physicalCoresNeeded shuffled)
        req.IncludeSMT topo,
      CCDsUsed := randMinCCDs topo physicalCoresNeeded }

/-- Go `generateManualPlaceholder`: carries only the minimum group count
(1 when the first group has no physical cores). -/
def generateManualPlaceholder (req : Request) (topo : CPUTopology)
    (physicalCoresNeeded : Int) : AffinityOption :=
  let coresPerCCD : Int :=
    match topo.CoreGroups with
    | [] => 0
    | g :: _ => g.PhysicalCPUs.length
  let minCCDsNeeded :=
    if 0 < coresPerCCD then (physicalCoresNeeded + coresPerCCD - 1).tdiv coresPerCCD
    else 1
  { Strategy := StrategyManual, Name := "Manual",
    Description := "Select " ++ toString minCCDsNeeded ++ " CCDs manually",
    CPUs := [], AffinityStr := "", CCDsUsed := minCCDsNeeded }

/-- Go `generatePCoresOnly`. -/
def generatePCoresOnly (req : Request) (topo : CPUTopology) (physicalCoresNeeded : Int) :
    AffinityOption :=
  let base : AffinityOption :=
    { Strategy := StrategyPCoresOnly, Name := "P-Cores Only",
      Description := "Use only Performance cores (best single-thread)",
      CPUs := [], AffinityStr := "", CCDsUsed := 0 }
  let pCores := topo.GetPCoresCPUs
  if (pCores.length : Int) < physicalCoresNeeded then
    { base with
      Description := "Unavailable: only " ++ toString pCores.length ++
        " P-cores, need " ++ toString physicalCoresNeeded }
  else
    { base with
      CPUs := expandToVCPUs (pCores.take physicalCoresNeeded.toNat) req.IncludeSMT topo,
      CCDsUsed := 1 }

/-- Go `generateECoresOnly`. -/
def generateECoresOnly (req : Request) (topo : CPUTopology) (physicalCoresNeeded : Int) :
    AffinityOption :=
  let base : AffinityOption :=
    { Strategy := StrategyECoresOnly, Name := "E-Cores Only",
      Description := "Use only Efficiency cores (power efficient)",
      CPUs := [], AffinityStr := "", CCDsUsed := 0 }
  let eCores := topo.GetECoresCPUs
  if (eCores.length : Int) < physicalCoresNeeded then
    { base with
      Description := "Unavailable: only " ++ toString eCores.length ++
        " E-cores, need " ++ toString physicalCoresNeeded }
  else
    { base with
      CPUs := expandToVCPUs (eCores.take physicalCoresNeeded.toNat) req.IncludeSMT topo,
      CCDsUsed := 1 }

/-- Go `generateAllCores`: P-cores and E-cores merged and sorted, first N
taken. -/
def generateAllCores (req : Request) (topo : CPUTopology) (physicalCoresNeeded : Int) :
    AffinityOption :=
  let merged := sortInts (topo.GetPCoresCPUs ++ topo.GetECoresCPUs)
  let selectedPhysical :=
    if physicalCoresNeeded < (merged.length : Int) then
      merged.take physicalCoresNeeded.toNat
    else merged
  { Strategy := StrategyAllCores, Name := "All Cores",
    Description := "Use both P-cores and E-cores (maximum throughput)",
    CPUs := expandToVCPUs selectedPhysical req.IncludeSMT topo,
    AffinityStr := "",
    CCDsUsed := countCCDsUsedByPhysical selectedPhysical topo }

/-- The `AffinityStr` fill-in loop at the end of both option builders. -/
def withAffinityStr (options : List AffinityOption) : List AffinityOption :=
  options.map (fun o => { o with AffinityStr := FormatCPUs o.CPUs })

/-- Go `generateAMDOptions` (its error return is always nil). -/
def generateAMDOptions (req : Request) (topo : CPUTopology) (physicalCoresNeeded : Int)
    (shuffled : List Nat) : List AffinityOption :=
  withAffinityStr
    [generateSingleCCD req topo physicalCoresNeeded,
     generateDistributed req topo physicalCoresNeeded,
     generateSequential req topo physicalCoresNeeded,
     generateRandom req topo physicalCoresNeeded shuffled,
     generateManualPlaceholder req topo physicalCoresNeeded]

/-- Go `generateIntelOptions` (no randomized strategy in this arm). -/
def generateIntelOptions (req : Request) (topo : CPUTopology) (physicalCoresNeeded : Int) :
    List AffinityOption :=
  withAffinityStr
    [generatePCoresOnly req topo physicalCoresNeeded,
     generateECoresOnly req topo physicalCoresNeeded,
     generateAllCores req topo physicalCoresNeeded,
     generateSequential req topo physicalCoresNeeded,
     generateManualPlaceholder req topo physicalCoresNeeded]

/-- Go `Generate`: validates the request (nil request or topology,
non-positive count, capacity) and dispatches on the architecture;
`shuffled` carries the random strategy's shuffle outcome. -/
def Generate (req : Option Request) (shuffled : List Nat) :
    Except String (List AffinityOption) :=
  match req with
  | none => .error "topology is required"
  | some r =>
    match r.Topology with
    | none => .error "topology is required"
    | some topo =>
      if r.CoresNeeded ≤ 0 then .error "cores needed must be greater than zero"
      else
        let physicalCoresNeeded := physicalCoresNeededFor r topo
        if topo.TotalCores < physicalCoresNeeded then
          .error ("not enough cores. need " ++ toString physicalCoresNeeded ++
            " physical cores for " ++ toString r.CoresNeeded ++
            " vCPUs, but only " ++ toString topo.TotalCores ++ " available")
        else if topo.Architecture = ArchIntelHybrid then
          .ok (generateIntelOptions r topo physicalCoresNeeded)
        else
          .ok (generateAMDOptions r topo physicalCoresNeeded shuffled)

/-- The `for _, ccdIdx := range selectedCCDIndices` loop of
`GenerateManual`: negative or out-of-range indices are skipped, in-range
groups contribute physical cores until the requirement is met. -/
def manualLoop (groups : List CoreGroup) (needed : Int) :
    List Int → List Int → List Int
  | [], acc => acc
  | idx :: rest, acc =>
    if 0 ≤ idx ∧ idx < (groups.length : Int) then
      manualLoop groups needed rest
        (takeUpTo needed acc ((groups.getD idx.toNat emptyCoreGroup).PhysicalCPUs))
    else manualLoop groups needed rest acc

/-- The physical selection of `GenerateManual` (indices are sorted
first, per `sort.Ints(selectedCCDIndices)`). -/
def manualSelectedPhysical (topo : CPUTopology) (needed : Int)
    (selectedCCDIndices : List Int) : List Int :=
  manualLoop topo.CoreGroups needed (sortInts selectedCCDIndices) []

/-- Go `GenerateManual`: explicit group-index selection; fails on a nil
request/topology, an empty index list, or when the selected groups yield
fewer physical cores than required. -/
def GenerateManual (req : Option Request) (selectedCCDIndices : List Int) :
    Except String AffinityOption :=
  match req with
  | none => .error "topology is required"
  | some r =>
    match r.Topology with
    | none => .error "topology is required"
    | some topo =>
      if selectedCCDIndices.length = 0 then .error "no CCDs selected"
      else
        let physicalCoresNeeded := physicalCoresNeededFor r topo
        let selectedPhysical := manualSelectedPhysical topo physicalCoresNeeded selectedCCDIndices
        if (selectedPhysical.length : Int) < physicalCoresNeeded then
          .error ("selected CCDs only have " ++ toString selectedPhysical.length ++
            " cores, need " ++ toString physicalCoresNeeded)
        else
          .ok
            { Strategy := StrategyManual, Name := "Manual",
              Description := "Manually selected " ++
                toString selectedCCDIndices.length ++ " CCDs",
              CPUs := expandToVCPUs selectedPhysical r.IncludeSMT topo,
              AffinityStr := FormatCPUs
                (expandToVCPUs selectedPhysical r.IncludeSMT topo),
              CCDsUsed := (selectedCCDIndices.length : Int) }

/-- Go `MinCCDsNeeded`. -/
def MinCCDsNeeded (topo : CPUTopology) (physicalCoresNeeded : Int) : Int :=
  match topo.CoreGroups with
  | [] => 0
  | g :: _ =>
    let coresPerCCD : Int := g.PhysicalCPUs.length
    if coresPerCCD = 0 then 0
    else (physicalCoresNeeded + coresPerCCD - 1).tdiv coresPerCCD

end affinity

open topology affinity

/-! ### Definitions supporting the claim statements -/

/-- The validation predicate of `Generate`, as stated by the claim: nil
request or topology, non-positive requested count, or a physical-core
requirement exceeding the topology's total physical-core count. -/
def generateErrorCondition (req : Option Request) : Prop :=
  match req with
  | none => True
  | some r =>
    match r.Topology with
    | none => True
    | some topo =>
      r.CoresNeeded ≤ 0 ∨ topo.TotalCores < physicalCoresNeededFor r topo

/-- Whether a manual group index is in range for the group list. -/
def validIdx (groups : List CoreGroup) (idx : Int) : Bool :=
  decide (0 ≤ idx ∧ idx < (groups.length : Int))

/-- The number of physical cores the in-range indices of `idxs` select
(counted once per index occurrence, as `GenerateManual`'s loop does). -/
def manualAvailable (groups : List CoreGroup) (idxs : List Int) : Nat :=
  ((idxs.filter (validIdx groups)).map
    (fun idx => ((groups.getD idx.toNat emptyCoreGroup).PhysicalCPUs).length)).sum

/-- Total number of physical cores reachable through a list of group
indices (each occurrence counted, out-of-range indices yielding the empty
default group). -/
def idxSizes (groups : List CoreGroup) (idxs : List Nat) : Nat :=
  (idxs.map (fun idx => ((groups.getD idx emptyCoreGroup).PhysicalCPUs).length)).sum

/-- The partition property claimed of every builder's group list: each
group's physical-core ids are duplicate-free, the groups' physical-core
id lists are pairwise disjoint, and their union is exactly the set of
first-thread ids of the input records. -/
def PhysPartition (groups : List CoreGroup) (cpus : List CPUInfo) : Prop :=
  (∀ g ∈ groups, g.PhysicalCPUs.Nodup)
  ∧ (groups.map (fun g => g.PhysicalCPUs)).Pairwise (fun a b => ∀ x ∈ a, x ∉ b)
  ∧ ∀ x : Int,
      (∃ g ∈ groups, x ∈ g.PhysicalCPUs) ↔ ∃ c ∈ cpus, c.IsFirstThread = true ∧ c.ID = x

/-- The outcome classification of one optional int read: `none` when the
read succeeded or failed with not-exist (so a default applies), otherwise
the failing error. -/
def readFailure (r : Except GoError Int) : Option GoError :=
  match r with
  | .ok _ => none
  | .error e => if e = GoError.notExist then none else some e

/-- Same classification for the list-valued sibling read. -/
def readFailureL (r : Except GoError (List Int)) : Option GoError :=
  match r with
  | .ok _ => none
  | .error e => if e = GoError.notExist then none else some e

/-- The first failure among the five topology-attribute reads of
`readCPUInfo`, in read order (package id, core id, cluster id, die id,
thread-sibling list); cache and capacity reads are absent by design. -/
def firstTopoError (fs : SysFS) (cpu : Int) : Option GoError :=
  match readFailure (fs.topoFile cpu "physical_package_id") with
  | some e => some e
  | none =>
    match readFailure (fs.topoFile cpu "core_id") with
    | some e => some e
    | none =>
      match readFailure (fs.topoFile cpu "cluster_id") with
      | some e => some e
      | none =>
        match readFailure (fs.topoFile cpu "die_id") with
        | some e => some e
        | none => readFailureL (fs.siblingsFile cpu)

/-- The successful value of an optional int read, with its default. -/
def valueOrDefault (r : Except GoError Int) (d : Int) : Int :=
  match r with
  | .ok v => v
  | .error _ => d

/-- The successful value of the sibling-list read, with its default. -/
def valueOrDefaultL (r : Except GoError (List Int)) (d : List Int) : List Int :=
  match r with
  | .ok v => v
  | .error _ => d

/-! ### Concrete instances used by witnesses and counterexamples -/

/-- First group of the even 16-logical/8-physical test topology. -/
def ccdA : CoreGroup :=
  { ID := 0, PackageID := 0, typ := CoreType.unknown, Name := "CCD 0", L3CacheID := 0,
    PhysicalCPUs := [0, 1, 2, 3], AllCPUs := [0, 1, 2, 3, 8, 9, 10, 11] }

/-- Second group of the even test topology. -/
def ccdB : CoreGroup :=
  { ID := 1, PackageID := 0, typ := CoreType.unknown, Name := "CCD 1", L3CacheID := 0,
    PhysicalCPUs := [4, 5, 6, 7], AllCPUs := [4, 5, 6, 7, 12, 13, 14, 15] }

/-- The topology of the spec's worked example: 16 logical CPUs over 8
physical cores, two groups of 4 physical cores each. -/
def topoEven16 : CPUTopology :=
  { Architecture := "amd", TotalCPUs := 16, TotalCores := 8, HasSMT := true,
    Packages := [{ ID := 0, CoreGroups := [ccdA, ccdB] }],
    CoreGroups := [ccdA, ccdB], DetectMethod := "l3_cache" }

/-- A request for 4 physical cores with SMT excluded. -/
def reqEven4 : Request :=
  { CoresNeeded := 4, IncludeSMT := false, Topology := some topoEven16 }

/-- A skewed chiplet topology: one group of 4 physical cores, one group
of 1 physical core (5 physical cores total). -/
def topoSkew : CPUTopology :=
  { Architecture := "amd", TotalCPUs := 5, TotalCores := 5, HasSMT := false,
    Packages :=
      [{ ID := 0,
         CoreGroups :=
           [{ ID := 0, PackageID := 0, typ := CoreType.unknown, Name := "CCD 0",
              L3CacheID := 0, PhysicalCPUs := [0, 1, 2, 3], AllCPUs := [0, 1, 2, 3] },
            { ID := 1, PackageID := 0, typ := CoreType.unknown, Name := "CCD 1",
              L3CacheID := 1, PhysicalCPUs := [4], AllCPUs := [4] }] }],
    CoreGroups :=
      [{ ID := 0, PackageID := 0, typ := CoreType.unknown, Name := "CCD 0",
         L3CacheID := 0, PhysicalCPUs := [0, 1, 2, 3], AllCPUs := [0, 1, 2, 3] },
       { ID := 1, PackageID := 0, typ := CoreType.unknown, Name := "CCD 1",
         L3CacheID := 1, PhysicalCPUs := [4], AllCPUs := [4] }],
    DetectMethod := "l3_cache" }

/-- A valid request for 4 physical cores on the skewed topology. -/
def reqSkew : Request :=
  { CoresNeeded := 4, IncludeSMT := false, Topology := some topoSkew }

/-- A sample per-CPU record builder for witnesses: 8 logical CPUs, two
L3 domains interleaved, SMT siblings 4 apart. -/
def mkCPU (id pkg core l3 : Int) (sib : List Int) : CPUInfo :=
  { ID := id, PackageID := pkg, CoreID := core, ClusterID := -1, DieID := -1,
    L3CacheID := l3, ThreadSiblings := sib,
    IsFirstThread := decide (sib.headD id = id), CoreType := CoreType.unknown,
    Capacity := 0 }

/-- Eight records over two L3 domains with SMT. -/
def cpusSample : List CPUInfo :=
  [mkCPU 0 0 0 0 [0, 4], mkCPU 1 0 1 1 [1, 5], mkCPU 2 0 2 0 [2, 6],
   mkCPU 3 0 3 1 [3, 7], mkCPU 4 0 0 0 [0, 4], mkCPU 5 0 1 1 [1, 5],
   mkCPU 6 0 2 0 [2, 6], mkCPU 7 0 3 1 [3, 7]]

/-- A single non-SMT record: its generic topology has a group whose
physical-cpu list equals its all-cpu list. -/
def cpuSolo : CPUInfo :=
  { ID := 0, PackageID := 0, CoreID := 0, ClusterID := -1, DieID := -1,
    L3CacheID := -1, ThreadSiblings := [0], IsFirstThread := true,
    CoreType := CoreType.unknown, Capacity := 0 }

/-! ### Generic lemmas about the list helpers -/

theorem mem_sortInts {a : Int} {l : List Int} : a ∈ sortInts l ↔ a ∈ l :=
  (List.perm_insertionSort (· ≤ ·) l).mem_iff

theorem sortInts_length (l : List Int) : (sortInts l).length = l.length :=
  (List.perm_insertionSort (· ≤ ·) l).length_eq

theorem sortInts_sorted (l : List Int) : (sortInts l).Sorted (· ≤ ·) :=
  List.sorted_insertionSort (· ≤ ·) l

theorem sortInts_nodup {l : List Int} (h : l.Nodup) : (sortInts l).Nodup :=
  ((List.perm_insertionSort (· ≤ ·) l).nodup_iff).2 h

theorem mem_dedupeSortedAux {a last : Int} {l : List Int} :
    (a ∈ dedupeSortedAux last l ∨ a = last) ↔ (a ∈ l ∨ a = last) := by
  induction l generalizing last with
  | nil => simp [dedupeSortedAux]
  | cons v rest ih =>
    rcases eq_or_ne v last with hv | hv
    · subst hv
      have h1 : dedupeSortedAux v (v :: rest) = dedupeSortedAux v rest := by
        simp [dedupeSortedAux]
      rw [h1, ih, List.mem_cons]
      tauto
    · have h1 : dedupeSortedAux last (v :: rest) = v :: dedupeSortedAux v rest := by
        simp [dedupeSortedAux, hv]
      rw [h1, List.mem_cons, List.mem_cons]
      have h2 := @ih v
      tauto

theorem mem_dedupeSorted {a : Int} {l : List Int} :
    a ∈ dedupeSorted l ↔ a ∈ l := by
  cases l with
  | nil => simp [dedupeSorted]
  | cons v rest =>
    simp only [dedupeSorted, List.mem_cons]
    have h := @mem_dedupeSortedAux a v rest
    tauto

theorem dedupeSortedAux_sorted {last : Int} {l : List Int}
    (hs : l.Sorted (· ≤ ·)) (hge : ∀ x ∈ l, last ≤ x) :
    (dedupeSortedAux last l).Sorted (· < ·) ∧
      ∀ x ∈ dedupeSortedAux last l, last < x := by
  induction l generalizing last with
  | nil => simp [dedupeSortedAux]
  | cons v rest ih =>
    have hrest : rest.Sorted (· ≤ ·) := hs.of_cons
    have hvle : ∀ x ∈ rest, v ≤ x := fun x hx => (List.sorted_cons.1 hs).1 x hx
    by_cases hv : v = last
    · subst hv
      simp only [dedupeSortedAux, if_pos rfl]
      exact ih hrest hvle
    · have hlastv : last < v := lt_of_le_of_ne (hge v (List.mem_cons_self v rest)) (Ne.symm hv)
      simp only [dedupeSortedAux, if_neg hv]
      obtain ⟨h1, h2⟩ := ih hrest hvle
      constructor
      · exact List.sorted_cons.2 ⟨h2, h1⟩
      · intro x hx
        rcases List.mem_cons.1 hx with rfl | hx
        · exact hlastv
        · exact lt_trans hlastv (h2 x hx)

theorem dedupeSorted_sorted {l : List Int} (hs : l.Sorted (· ≤ ·)) :
    (dedupeSorted l).Sorted (· < ·) := by
  cases l with
  | nil => simp [dedupeSorted]
  | cons v rest =>
    have hrest : rest.Sorted (· ≤ ·) := hs.of_cons
    have hvle : ∀ x ∈ rest, v ≤ x := fun x hx => (List.sorted_cons.1 hs).1 x hx
    obtain ⟨h1, h2⟩ := dedupeSortedAux_sorted hrest hvle
    exact List.sorted_cons.2 ⟨h2, h1⟩

theorem dedupeSorted_nodup {l : List Int} (hs : l.Sorted (· ≤ ·)) :
    (dedupeSorted l).Nodup :=
  (dedupeSorted_sorted hs).imp (fun h => ne_of_lt h)

theorem dedupeSortedAux_length_le (last : Int) (l : List Int) :
    (dedupeSortedAux last l).length ≤ l.length := by
  induction l generalizing last with
  | nil => simp [dedupeSortedAux]
  | cons v rest ih =>
    by_cases hv : v = last
    · simp only [dedupeSortedAux, if_pos hv]
      exact le_trans (ih last) (Nat.le_succ _)
    · simp only [dedupeSortedAux, if_neg hv, List.length_cons]
      exact Nat.succ_le_succ (ih v)

theorem dedupeSorted_length_le (l : List Int) :
    (dedupeSorted l).length ≤ l.length := by
  cases l with
  | nil => simp [dedupeSorted]
  | cons v rest =>
    simp only [dedupeSorted, List.length_cons]
    exact Nat.succ_le_succ (dedupeSortedAux_length_le v rest)

theorem sorted_lt_eq_of_mem_iff {l₁ l₂ : List Int}
    (h₁ : l₁.Sorted (· < ·)) (h₂ : l₂.Sorted (· < ·))
    (h : ∀ a, a ∈ l₁ ↔ a ∈ l₂) : l₁ = l₂ := by
  have n₁ : l₁.Nodup := h₁.imp (fun h => ne_of_lt h)
  have n₂ : l₂.Nodup := h₂.imp (fun h => ne_of_lt h)
  have hperm : l₁.Perm l₂ := by
    refine List.perm_of_nodup_nodup_toFinset_eq n₁ n₂ ?_
    ext a
    simp only [List.mem_toFinset]
    exact h a
  exact List.eq_of_perm_of_sorted hperm
    (h₁.imp (fun h => le_of_lt h)) (h₂.imp (fun h => le_of_lt h))

/-- Sorting and deduplicating depends only on the element set. -/
theorem dedupeSorted_sortInts_eq_of_mem_iff {l l' : List Int}
    (h : ∀ x, x ∈ l ↔ x ∈ l') :
    dedupeSorted (sortInts l) = dedupeSorted (sortInts l') := by
  refine sorted_lt_eq_of_mem_iff
    (dedupeSorted_sorted (sortInts_sorted l))
    (dedupeSorted_sorted (sortInts_sorted l')) ?_
  intro a
  rw [mem_dedupeSorted, mem_dedupeSorted, mem_sortInts, mem_sortInts]
  exact h a

/-! ### Claim C2: canonical range-string encoding -/

/-- C2. `FormatCPUs` first sorts and deduplicates and then encodes
maximal consecutive runs joined by commas: its output depends only on
the set of input ids (invariance under reordering and duplication), it
maps `[0,1,2,5,7,8]` to `"0-2,5,7-8"`, the empty list to `""` and `[4]`
to `"4"`, and pre-sorting/deduplicating the input does not change the
output. -/
theorem C2_FormatCPUs_canonical :
    (∀ l l' : List Int, (∀ x, x ∈ l ↔ x ∈ l') → FormatCPUs l = FormatCPUs l')
    ∧ FormatCPUs [0, 1, 2, 5, 7, 8] = "0-2,5,7-8"
    ∧ FormatCPUs [] = ""
    ∧ FormatCPUs [4] = "4"
    ∧ ∀ l : List Int, FormatCPUs (dedupeSorted (sortInts l)) = FormatCPUs l := by
  have hinv : ∀ l l' : List Int, (∀ x, x ∈ l ↔ x ∈ l') →
      FormatCPUs l = FormatCPUs l' := by
    intro l l' h
    unfold FormatCPUs
    rw [dedupeSorted_sortInts_eq_of_mem_iff h]
  refine ⟨hinv, by decide, by decide, by decide, ?_⟩
  intro l
  refine hinv _ _ ?_
  intro x
  rw [mem_dedupeSorted, mem_sortInts]

/-- Witness for C2: the invariance clause applied at a concrete
reordered, duplicated input. -/
theorem C2_witness :
    FormatCPUs [8, 0, 5, 1, 2, 7, 2, 8] = FormatCPUs [0, 1, 2, 5, 7, 8] :=
  C2_FormatCPUs_canonical.1 [8, 0, 5, 1, 2, 7, 2, 8] [0, 1, 2, 5, 7, 8]
    (by intro x; simp only [List.mem_cons, List.not_mem_nil, or_false]; omega)

/-! ### Claim C5: strategies on the even two-group topology -/

/-- C5. On a topology of 16 logical CPUs over 8 physical cores in two
groups of 4 physical cores each, a request for 4 physical cores with SMT
excluded yields: Single-group returns exactly 4 CPUs all from one group
(`ccdA`); Distributed returns exactly 2 CPUs from each of the 2 groups;
Sequential returns the 4 lowest physical-core ids. -/
theorem C5_even_topology_strategies :
    ((generateSingleCCD reqEven4 topoEven16
          (physicalCoresNeededFor reqEven4 topoEven16)).CPUs.length = 4
      ∧ (generateSingleCCD reqEven4 topoEven16
          (physicalCoresNeededFor reqEven4 topoEven16)).CPUs.all
            (fun x => ccdA.PhysicalCPUs.contains x) = true)
    ∧ ((generateDistributed reqEven4 topoEven16
          (physicalCoresNeededFor reqEven4 topoEven16)).CPUs.length = 4
      ∧ ((generateDistributed reqEven4 topoEven16
            (physicalCoresNeededFor reqEven4 topoEven16)).CPUs.filter
              (fun x => ccdA.PhysicalCPUs.contains x)).length = 2
      ∧ ((generateDistributed reqEven4 topoEven16
            (physicalCoresNeededFor reqEven4 topoEven16)).CPUs.filter
              (fun x => ccdB.PhysicalCPUs.contains x)).length = 2)
    ∧ (generateSequential reqEven4 topoEven16
          (physicalCoresNeededFor reqEven4 topoEven16)).CPUs
        = (allPhysicalCPUsSorted topoEven16).take 4
    ∧ (generateSequential reqEven4 topoEven16
          (physicalCoresNeededFor reqEven4 topoEven16)).CPUs = [0, 1, 2, 3] := by
  have hdist : (generateDistributed reqEven4 topoEven16
      (physicalCoresNeededFor reqEven4 topoEven16)).CPUs = [0, 1, 4, 5] := by
    simp +decide [generateDistributed, distLoop, distPass]
  refine ⟨⟨by decide, by decide⟩, ⟨?_, ?_, ?_⟩, by decide, by decide⟩
  · rw [hdist]; decide
  · rw [hdist]; decide
  · rw [hdist]; decide

/-! ### Claim C1: Generate validation and option list -/

theorem strategy_generateSingleCCD (r : Request) (t : CPUTopology) (n : Int) :
    (generateSingleCCD r t n).Strategy = StrategySingleCCD := by
  unfold generateSingleCCD
  split <;> rfl

theorem strategy_generateDistributed (r : Request) (t : CPUTopology) (n : Int) :
    (generateDistributed r t n).Strategy = StrategyDistributed := rfl

theorem strategy_generateSequential (r : Request) (t : CPUTopology) (n : Int) :
    (generateSequential r t n).Strategy = StrategySequential := rfl

theorem strategy_generateRandom (r : Request) (t : CPUTopology) (n : Int)
    (shuffled : List Nat) :
    (generateRandom r t n shuffled).Strategy = StrategyRandom := by
  unfold generateRandom
  split <;> rfl

theorem strategy_generateManualPlaceholder (r : Request) (t : CPUTopology) (n : Int) :
    (generateManualPlaceholder r t n).Strategy = StrategyManual := rfl

theorem strategy_generatePCoresOnly (r : Request) (t : CPUTopology) (n : Int) :
    (generatePCoresOnly r t n).Strategy = StrategyPCoresOnly := by
  by_cases h : (t.GetPCoresCPUs.length : Int) < n <;>
    simp [generatePCoresOnly, h]

theorem strategy_generateECoresOnly (r : Request) (t : CPUTopology) (n : Int) :
    (generateECoresOnly r t n).Strategy = StrategyECoresOnly := by
  by_cases h : (t.GetECoresCPUs.length : Int) < n <;>
    simp [generateECoresOnly, h]

/-- Shape of `Generate` on a validated request. -/
theorem Generate_ok (r : Request) (topo : CPUTopology) (shuffled : List Nat)
    (htopo : r.Topology = some topo) (h1 : 0 < r.CoresNeeded)
    (h2 : physicalCoresNeededFor r topo ≤ topo.TotalCores) :
    Generate (some r) shuffled =
      if topo.Architecture = ArchIntelHybrid then
        .ok (generateIntelOptions r topo (physicalCoresNeededFor r topo))
      else .ok (generateAMDOptions r topo (physicalCoresNeededFor r topo) shuffled) := by
  simp only [Generate, htopo]
  rw [if_neg (by omega), if_neg (by omega)]

theorem strategy_generateAllCores (r : Request) (t : CPUTopology) (n : Int) :
    (generateAllCores r t n).Strategy = StrategyAllCores := rfl

theorem withAffinityStr_map_strategy (l : List AffinityOption) :
    (withAffinityStr l).map (fun o => o.Strategy) = l.map (fun o => o.Strategy) := by
  unfold withAffinityStr
  rw [List.map_map]
  rfl

/-- C1. `Generate` returns an error exactly when the topology reference
is nil, the requested count is non-positive, or the physical-core
requirement exceeds the topology's total core count; in every other case
it returns the full fixed-order strategy list of its architecture arm,
and a strategy that cannot satisfy the requirement (Single-group shown
for the chiplet arm, P-cores-only for the hybrid arm) is a normal option
with an empty cpu set and an explanatory Unavailable description. -/
theorem C1_Generate_validation :
    (∀ (req : Option Request) (shuffled : List Nat),
      (∃ e, Generate req shuffled = .error e) ↔ generateErrorCondition req)
    ∧ (∀ (r : Request) (topo : CPUTopology) (shuffled : List Nat),
        r.Topology = some topo → ¬ generateErrorCondition (some r) →
        ∃ opts, Generate (some r) shuffled = .ok opts ∧
          opts.map (fun o => o.Strategy) =
            (if topo.Architecture = ArchIntelHybrid then
              [StrategyPCoresOnly, StrategyECoresOnly, StrategyAllCores,
               StrategySequential, StrategyManual]
            else
              [StrategySingleCCD, StrategyDistributed, StrategySequential,
               StrategyRandom, StrategyManual]))
    ∧ (∀ (r : Request) (topo : CPUTopology) (n : Int),
        (∀ cg ∈ topo.CoreGroups, (cg.PhysicalCPUs.length : Int) < n) →
        (generateSingleCCD r topo n).CPUs = []
        ∧ (generateSingleCCD r topo n).Description =
            "Unavailable: no single CCD has " ++ toString n ++ " cores")
    ∧ (∀ (r : Request) (topo : CPUTopology) (n : Int),
        (topo.GetPCoresCPUs.length : Int) < n →
        (generatePCoresOnly r topo n).CPUs = []
        ∧ (generatePCoresOnly r topo n).Description =
            "Unavailable: only " ++ toString topo.GetPCoresCPUs.length ++
              " P-cores, need " ++ toString n) := by
  refine ⟨?_, ?_, ?_, ?_⟩
  · intro req shuffled
    match req with
    | none => simp [Generate, generateErrorCondition]
    | some r =>
      match htopo : r.Topology with
      | none => simp [Generate, generateErrorCondition, htopo]
      | some topo =>
        by_cases h1 : r.CoresNeeded ≤ 0
        · simp [Generate, generateErrorCondition, htopo, h1]
        · by_cases h2 : topo.TotalCores < physicalCoresNeededFor r topo
          · simp [Generate, generateErrorCondition, htopo, h1, h2]
          · simp only [Generate, generateErrorCondition, htopo, if_neg h1, if_neg h2]
            constructor
            · rintro ⟨e, he⟩
              split at he <;> simp at he
            · rintro (h | h) <;> omega
  · intro r topo shuffled htopo hok
    simp only [generateErrorCondition, htopo, not_or, not_le, not_lt] at hok
    obtain ⟨h1, h2⟩ := hok
    by_cases harch : topo.Architecture = ArchIntelHybrid
    · refine ⟨generateIntelOptions r topo (physicalCoresNeededFor r topo), ?_, ?_⟩
      · rw [Generate_ok r topo shuffled htopo h1 h2, if_pos harch]
      · rw [if_pos harch]
        unfold generateIntelOptions
        rw [withAffinityStr_map_strategy]
        simp [strategy_generatePCoresOnly, strategy_generateECoresOnly,
          strategy_generateAllCores, strategy_generateSequential,
          strategy_generateManualPlaceholder]
    · refine ⟨generateAMDOptions r topo (physicalCoresNeededFor r topo) shuffled, ?_, ?_⟩
      · rw [Generate_ok r topo shuffled htopo h1 h2, if_neg harch]
      · rw [if_neg harch]
        unfold generateAMDOptions
        rw [withAffinityStr_map_strategy]
        simp [strategy_generateSingleCCD, strategy_generateDistributed,
          strategy_generateSequential, strategy_generateRandom,
          strategy_generateManualPlaceholder]
  · intro r topo n h
    have hf : topo.CoreGroups.find?
        (fun cg => decide (n ≤ (cg.PhysicalCPUs.length : Int))) = none := by
      rw [List.find?_eq_none]
      intro cg hcg
      have := h cg hcg
      simp only [decide_eq_true_eq]
      omega
    constructor
    · unfold generateSingleCCD
      rw [hf]
    · unfold generateSingleCCD
      rw [hf]
  · intro r topo n h
    constructor
    · unfold generatePCoresOnly
      rw [if_pos h]
    · unfold generatePCoresOnly
      rw [if_pos h]

/-- Witness for C1: the success clause applied at the even two-group
topology with a concrete shuffle outcome. -/
theorem C1_witness :
    ∃ opts, Generate (some reqEven4) [0, 1] = .ok opts ∧
      opts.map (fun o => o.Strategy) =
        (if topoEven16.Architecture = ArchIntelHybrid then
          [StrategyPCoresOnly, StrategyECoresOnly, StrategyAllCores,
           StrategySequential, StrategyManual]
        else
          [StrategySingleCCD, StrategyDistributed, StrategySequential,
           StrategyRandom, StrategyManual]) :=
  C1_Generate_validation.2.1 reqEven4 topoEven16 [0, 1] rfl
    (by simp [generateErrorCondition, physicalCoresNeededFor, reqEven4, topoEven16])

/-! ### Claim C4: SMT expansion -/

theorem lookup_mem {l : List (Int × List Int)} {k : Int} {v : List Int}
    (h : l.lookup k = some v) : (k, v) ∈ l := by
  induction l with
  | nil => simp [List.lookup] at h
  | cons kv rest ih =>
    obtain ⟨a, b⟩ := kv
    by_cases hk : k = a
    · subst hk
      simp only [List.lookup, beq_self_eq_true] at h
      cases h
      exact List.mem_cons_self _ _
    · have hbeq : (k == a) = false := beq_eq_false_iff_ne.2 hk
      simp only [List.lookup, hbeq] at h
      exact List.mem_cons_of_mem _ (ih h)

theorem lookup_eq_of_mem_nodup {l : List (Int × List Int)} {k : Int} {v : List Int}
    (hnd : (l.map Prod.fst).Nodup) (hmem : (k, v) ∈ l) : l.lookup k = some v := by
  induction l with
  | nil => simp at hmem
  | cons kv rest ih =>
    obtain ⟨a, b⟩ := kv
    simp only [List.map_cons, List.nodup_cons] at hnd
    obtain ⟨ha, hnd'⟩ := hnd
    rcases List.mem_cons.1 hmem with heq | hmem'
    · cases heq
      simp [List.lookup]
    · have hkne : (k == a) = false := by
        refine beq_eq_false_iff_ne.2 ?_
        intro hkk
        subst hkk
        exact ha (List.mem_map.2 ⟨(k, v), hmem', rfl⟩)
      simp only [List.lookup, hkne]
      exact ih hnd' hmem'

theorem siblingEntries_keys (topo : CPUTopology) :
    (siblingEntries topo).map Prod.fst
      = topo.CoreGroups.flatMap (fun g => g.PhysicalCPUs) := by
  unfold siblingEntries
  rw [List.map_flatMap]
  congr 1
  funext cg
  rw [List.map_map]
  have hf : ((fun p : Int × List Int => p.fst) ∘
      (fun ip : Nat × Int =>
        ((ip.2 : Int),
          if ip.1 + cg.PhysicalCPUs.length < cg.AllCPUs.length then
            [ip.2, cg.AllCPUs.getD (ip.1 + cg.PhysicalCPUs.length) 0]
          else [ip.2]))) = Prod.snd := by
    funext ip
    rfl
  rw [hf, List.enum_map_snd]

theorem siblingEntries_shape {topo : CPUTopology} {kv : Int × List Int}
    (h : kv ∈ siblingEntries topo) : kv.1 ∈ kv.2 ∧ kv.2.length ≤ 2 := by
  unfold siblingEntries at h
  rw [List.mem_flatMap] at h
  obtain ⟨cg, hcg, h⟩ := h
  rw [List.mem_map] at h
  obtain ⟨ip, hip, rfl⟩ := h
  by_cases hc : ip.1 + cg.PhysicalCPUs.length < cg.AllCPUs.length <;> simp [hc]

theorem siblingEntries_entry (topo : CPUTopology) {cg : CoreGroup}
    (hcg : cg ∈ topo.CoreGroups) {i : Nat} (hi : i < cg.PhysicalCPUs.length) :
    ((cg.PhysicalCPUs[i],
      if i + cg.PhysicalCPUs.length < cg.AllCPUs.length then
        [cg.PhysicalCPUs[i], cg.AllCPUs.getD (i + cg.PhysicalCPUs.length) 0]
      else [cg.PhysicalCPUs[i]]) : Int × List Int) ∈ siblingEntries topo := by
  unfold siblingEntries
  rw [List.mem_flatMap]
  refine ⟨cg, hcg, ?_⟩
  rw [List.mem_map]
  refine ⟨(i, cg.PhysicalCPUs[i]), ?_, rfl⟩
  have hlen : i < cg.PhysicalCPUs.enum.length := by
    rw [List.enum_length]; exact hi
  have hget := List.getElem_enum cg.PhysicalCPUs i hlen
  rw [← hget]
  exact List.getElem_mem hlen

theorem flatMap_length_le_two {α : Type} (l : List α) (f : α → List Int)
    (h : ∀ a ∈ l, (f a).length ≤ 2) : (l.flatMap f).length ≤ 2 * l.length := by
  induction l with
  | nil => simp
  | cons a rest ih =>
    simp only [List.flatMap_cons, List.length_append, List.length_cons]
    have h1 := h a (List.mem_cons_self a rest)
    have h2 := ih (fun b hb => h b (List.mem_cons_of_mem a hb))
    omega

/-- C4. SMT expansion: without SMT inclusion or without SMT in the
topology the result is exactly the input selection, sorted; with both,
the result is a strictly sorted (hence deduplicated) superset of the
selection of size at most twice the selection's size, and the sibling map
pairs the physical core at position `i` of a group's physical list with
the logical id at position `i + physicalCount` of that group's thread
list when that position exists (stated for topologies whose groups'
physical lists do not repeat ids, which every builder guarantees). -/
theorem C4_expandToVCPUs_spec :
    (∀ (phys : List Int) (topo : CPUTopology) (includeSMT : Bool),
      includeSMT = false ∨ topo.HasSMT = false →
      expandToVCPUs phys includeSMT topo = sortInts phys)
    ∧ (∀ (phys : List Int) (topo : CPUTopology), topo.HasSMT = true →
        (expandToVCPUs phys true topo).Sorted (· < ·)
        ∧ (expandToVCPUs phys true topo).Nodup
        ∧ (∀ x ∈ phys, x ∈ expandToVCPUs phys true topo)
        ∧ (expandToVCPUs phys true topo).length ≤ 2 * phys.length)
    ∧ (∀ topo : CPUTopology,
        (topo.CoreGroups.flatMap (fun g => g.PhysicalCPUs)).Nodup →
        ∀ cg ∈ topo.CoreGroups, ∀ i : Nat, ∀ hi : i < cg.PhysicalCPUs.length,
        (siblingEntries topo).reverse.lookup cg.PhysicalCPUs[i] =
          some (if i + cg.PhysicalCPUs.length < cg.AllCPUs.length then
            [cg.PhysicalCPUs[i], cg.AllCPUs.getD (i + cg.PhysicalCPUs.length) 0]
          else [cg.PhysicalCPUs[i]])) := by
  refine ⟨?_, ?_, ?_⟩
  · intro phys topo includeSMT h
    rcases h with h | h <;> simp [expandToVCPUs, h]
  · intro phys topo hsmt
    have hbr : expandToVCPUs phys true topo =
        dedupeSorted (sortInts (phys.flatMap (fun p =>
          match (siblingEntries topo).reverse.lookup p with
          | some siblings => siblings
          | none => [p]))) := by
      simp [expandToVCPUs, hsmt]
    refine ⟨?_, ?_, ?_, ?_⟩
    · rw [hbr]; exact dedupeSorted_sorted (sortInts_sorted _)
    · rw [hbr]; exact dedupeSorted_nodup (sortInts_sorted _)
    · intro x hx
      rw [hbr, mem_dedupeSorted, mem_sortInts, List.mem_flatMap]
      refine ⟨x, hx, ?_⟩
      cases hl : (siblingEntries topo).reverse.lookup x with
      | none => simp
      | some siblings =>
        have hmem := lookup_mem hl
        rw [List.mem_reverse] at hmem
        exact (siblingEntries_shape hmem).1
    · rw [hbr]
      refine le_trans (dedupeSorted_length_le _) ?_
      rw [sortInts_length]
      refine flatMap_length_le_two phys _ ?_
      intro p hp
      cases hl : (siblingEntries topo).reverse.lookup p with
      | none => simp
      | some siblings =>
        have hmem := lookup_mem hl
        rw [List.mem_reverse] at hmem
        exact (siblingEntries_shape hmem).2
  · intro topo hnd cg hcg i hi
    apply lookup_eq_of_mem_nodup
    · rw [List.map_reverse, List.nodup_reverse, siblingEntries_keys]
      exact hnd
    · rw [List.mem_reverse]
      exact siblingEntries_entry topo hcg hi

/-- Witness for C4: the SMT-expansion clause applied at the even test
topology and a concrete selection. -/
theorem C4_witness :
    (expandToVCPUs [4, 0, 1] true topoEven16).Sorted (· < ·)
    ∧ (expandToVCPUs [4, 0, 1] true topoEven16).Nodup
    ∧ (∀ x ∈ [(4 : Int), 0, 1], x ∈ expandToVCPUs [4, 0, 1] true topoEven16)
    ∧ (expandToVCPUs [4, 0, 1] true topoEven16).length ≤ 2 * [(4 : Int), 0, 1].length :=
  C4_expandToVCPUs_spec.2.1 [4, 0, 1] topoEven16 rfl

/-! ### Claim C10: manual selection -/

theorem takeUpTo_length (needed : Int) (acc l : List Int) :
    (takeUpTo needed acc l).length
      = acc.length + min ((needed - acc.length).toNat) l.length := by
  induction l generalizing acc with
  | nil => simp [takeUpTo]
  | cons p ps ih =>
    by_cases h : needed ≤ (acc.length : Int)
    · simp only [takeUpTo, if_pos h, List.length_cons]
      omega
    · simp only [takeUpTo, if_neg h]
      rw [ih]
      simp only [List.length_append, List.length_cons, List.length_nil]
      omega

theorem takeUpTo_subset (needed : Int) (acc l : List Int) :
    ∀ x ∈ takeUpTo needed acc l, x ∈ acc ∨ x ∈ l := by
  induction l generalizing acc with
  | nil =>
    intro x hx
    exact Or.inl (by simpa [takeUpTo] using hx)
  | cons p ps ih =>
    intro x hx
    by_cases h : needed ≤ (acc.length : Int)
    · simp only [takeUpTo, if_pos h] at hx
      exact Or.inl hx
    · simp only [takeUpTo, if_neg h] at hx
      rcases ih (acc ++ [p]) x hx with hacc | hps
      · rcases List.mem_append.1 hacc with h1 | h1
        · exact Or.inl h1
        · exact Or.inr (List.mem_cons.2 (Or.inl (by simpa using h1)))
      · exact Or.inr (List.mem_cons_of_mem _ hps)

theorem manualLoop_skip (groups : List CoreGroup) (needed : Int)
    (idxs acc : List Int) :
    manualLoop groups needed idxs acc
      = manualLoop groups needed (idxs.filter (validIdx groups)) acc := by
  induction idxs generalizing acc with
  | nil => rfl
  | cons idx rest ih =>
    by_cases h : 0 ≤ idx ∧ idx < (groups.length : Int)
    · have hv : validIdx groups idx = true := decide_eq_true h
      rw [List.filter_cons_of_pos hv]
      simp only [manualLoop, if_pos h]
      exact ih _
    · have hv : validIdx groups idx = false := decide_eq_false h
      rw [List.filter_cons_of_neg (by simp [hv])]
      simp only [manualLoop, if_neg h]
      exact ih acc

theorem manualLoop_length (groups : List CoreGroup) (needed : Int)
    (idxs acc : List Int) :
    (manualLoop groups needed idxs acc).length
      = acc.length + min ((needed - acc.length).toNat) (manualAvailable groups idxs) := by
  induction idxs generalizing acc with
  | nil => simp [manualLoop, manualAvailable]
  | cons idx rest ih =>
    by_cases h : 0 ≤ idx ∧ idx < (groups.length : Int)
    · have hv : validIdx groups idx = true := decide_eq_true h
      have hm : manualAvailable groups (idx :: rest)
          = ((groups.getD idx.toNat emptyCoreGroup).PhysicalCPUs).length
            + manualAvailable groups rest := by
        simp [manualAvailable, List.filter_cons, hv]
      simp only [manualLoop, if_pos h]
      rw [ih, takeUpTo_length, hm]
      omega
    · have hv : validIdx groups idx = false := decide_eq_false h
      have hm : manualAvailable groups (idx :: rest) = manualAvailable groups rest := by
        simp [manualAvailable, List.filter_cons, hv]
      simp only [manualLoop, if_neg h]
      rw [ih, hm]

/-- C10. `GenerateManual` on a non-empty index list with a topology:
out-of-range indices are silently skipped (the selection equals the one
computed from the in-range indices only), it fails exactly when the
in-range index occurrences select fewer physical cores than the
requirement — so in particular failure implies the distinct in-range
selected groups together hold fewer physical cores than required — and
on success the reported group count equals the number of indices passed,
counting invalid and duplicate indices. -/
theorem C10_GenerateManual_spec :
    ∀ (r : Request) (topo : CPUTopology) (idxs : List Int),
      r.Topology = some topo → idxs ≠ [] →
      (manualSelectedPhysical topo (physicalCoresNeededFor r topo) idxs
          = manualLoop topo.CoreGroups (physicalCoresNeededFor r topo)
              ((sortInts idxs).filter (validIdx topo.CoreGroups)) [])
      ∧ ((∃ e, GenerateManual (some r) idxs = .error e)
          ↔ (manualAvailable topo.CoreGroups (sortInts idxs) : Int)
              < physicalCoresNeededFor r topo)
      ∧ ((∃ e, GenerateManual (some r) idxs = .error e)
          → (manualAvailable topo.CoreGroups ((sortInts idxs).dedup) : Int)
              < physicalCoresNeededFor r topo)
      ∧ (∀ o, GenerateManual (some r) idxs = .ok o →
          o.CCDsUsed = (idxs.length : Int)
          ∧ o.CPUs = expandToVCPUs
              (manualSelectedPhysical topo (physicalCoresNeededFor r topo) idxs)
              r.IncludeSMT topo) := by
  intro r topo idxs htopo hne
  have hlenne : ¬ idxs.length = 0 := by
    intro h
    exact hne (List.length_eq_zero.1 h)
  have hsel : (manualSelectedPhysical topo (physicalCoresNeededFor r topo) idxs).length
      = min (physicalCoresNeededFor r topo).toNat
          (manualAvailable topo.CoreGroups (sortInts idxs)) := by
    unfold manualSelectedPhysical
    rw [manualLoop_length]
    simp
  have hgm : GenerateManual (some r) idxs =
      (if ((manualSelectedPhysical topo (physicalCoresNeededFor r topo) idxs).length : Int)
          < physicalCoresNeededFor r topo then
        .error ("selected CCDs only have "
          ++ toString (manualSelectedPhysical topo (physicalCoresNeededFor r topo) idxs).length
          ++ " cores, need " ++ toString (physicalCoresNeededFor r topo))
      else
        .ok
          { Strategy := StrategyManual, Name := "Manual",
            Description := "Manually selected " ++ toString idxs.length ++ " CCDs",
            CPUs := expandToVCPUs
              (manualSelectedPhysical topo (physicalCoresNeededFor r topo) idxs)
              r.IncludeSMT topo,
            AffinityStr := FormatCPUs (expandToVCPUs
              (manualSelectedPhysical topo (physicalCoresNeededFor r topo) idxs)
              r.IncludeSMT topo),
            CCDsUsed := (idxs.length : Int) }) := by
    simp only [GenerateManual, htopo, if_neg hlenne]
  refine ⟨?_, ?_, ?_, ?_⟩
  · unfold manualSelectedPhysical
    exact manualLoop_skip _ _ _ _
  · rw [hgm]
    by_cases hc : ((manualSelectedPhysical topo (physicalCoresNeededFor r topo) idxs).length : Int)
        < physicalCoresNeededFor r topo
    · rw [if_pos hc]
      simp only [Except.error.injEq, exists_eq]
      constructor
      · intro _
        rw [hsel] at hc
        omega
      · intro _
        exact ⟨_, rfl⟩
    · rw [if_neg hc]
      simp only [reduceCtorEq, exists_false, false_iff, not_lt]
      rw [hsel] at hc
      omega
  · intro herr
    have h2 : (manualAvailable topo.CoreGroups (sortInts idxs) : Int)
        < physicalCoresNeededFor r topo := by
      rw [hgm] at herr
      by_cases hc : ((manualSelectedPhysical topo (physicalCoresNeededFor r topo) idxs).length : Int)
          < physicalCoresNeededFor r topo
      · rw [hsel] at hc
        omega
      · rw [if_neg hc] at herr
        obtain ⟨e, he⟩ := herr
        simp at he
    have hle : manualAvailable topo.CoreGroups ((sortInts idxs).dedup)
        ≤ manualAvailable topo.CoreGroups (sortInts idxs) := by
      unfold manualAvailable
      refine List.Sublist.sum_le_sum ?_ ?_
      · exact ((List.dedup_sublist _).filter _).map _
      · intro a _
        exact Nat.zero_le a
    omega
  · intro o ho
    rw [hgm] at ho
    by_cases hc : ((manualSelectedPhysical topo (physicalCoresNeededFor r topo) idxs).length : Int)
        < physicalCoresNeededFor r topo
    · rw [if_pos hc] at ho
      simp at ho
    · rw [if_neg hc] at ho
      simp only [Except.ok.injEq] at ho
      subst ho
      exact ⟨rfl, rfl⟩

/-- Witness for C10: the failure characterization applied at the even
topology with an index list containing out-of-range entries. -/
theorem C10_witness :
    (∃ e, GenerateManual (some reqEven4) [5, -1, 0] = .error e)
      ↔ (manualAvailable topoEven16.CoreGroups (sortInts [5, -1, 0]) : Int)
          < physicalCoresNeededFor reqEven4 topoEven16 :=
  (C10_GenerateManual_spec reqEven4 topoEven16 [5, -1, 0] rfl (by decide)).2.1

/-! ### Claim C6: the Random strategy -/

theorem randTake_length (groups : List CoreGroup) (needed : Int)
    (idxs : List Nat) (acc : List Int) :
    (randTake groups needed idxs acc).length
      = acc.length + min ((needed - acc.length).toNat) (idxSizes groups idxs) := by
  induction idxs generalizing acc with
  | nil => simp [randTake, idxSizes]
  | cons idx rest ih =>
    have hm : idxSizes groups (idx :: rest)
        = ((groups.getD idx emptyCoreGroup).PhysicalCPUs).length
          + idxSizes groups rest := by
      simp [idxSizes]
    simp only [randTake]
    rw [ih, takeUpTo_length, hm]
    omega

theorem randTake_subset (groups : List CoreGroup) (needed : Int)
    (idxs : List Nat) (acc : List Int) :
    ∀ x ∈ randTake groups needed idxs acc,
      x ∈ acc ∨ ∃ g ∈ groups, x ∈ g.PhysicalCPUs := by
  induction idxs generalizing acc with
  | nil =>
    intro x hx
    exact Or.inl (by simpa [randTake] using hx)
  | cons idx rest ih =>
    intro x hx
    simp only [randTake] at hx
    rcases ih _ x hx with hacc | hg
    · rcases takeUpTo_subset _ _ _ x hacc with h1 | h1
      · exact Or.inl h1
      · by_cases hidx : idx < groups.length
        · refine Or.inr ⟨groups[idx], List.getElem_mem hidx, ?_⟩
          rwa [List.getD_eq_getElem _ _ hidx] at h1
        · rw [List.getD_eq_default _ _ (by omega)] at h1
          simp [emptyCoreGroup] at h1
    · exact Or.inr hg

theorem idxSizes_uniform (groups : List CoreGroup) (cpc : Nat) (idxs : List Nat)
    (h : ∀ i ∈ idxs, ((groups.getD i emptyCoreGroup).PhysicalCPUs).length = cpc) :
    idxSizes groups idxs = idxs.length * cpc := by
  induction idxs with
  | nil => simp [idxSizes]
  | cons i rest ih =>
    have hr := ih (fun j hj => h j (List.mem_cons_of_mem _ hj))
    simp only [idxSizes, List.map_cons, List.sum_cons, List.length_cons] at hr ⊢
    rw [h i (List.mem_cons_self i rest), hr]
    ring

theorem ceil_tdiv_bound (needed cpc : Int) (hn : 1 ≤ needed) (hc : 0 < cpc) :
    needed ≤ cpc * ((needed + cpc - 1).tdiv cpc) := by
  have ha : 0 ≤ needed + cpc - 1 := by omega
  rw [Int.tdiv_eq_ediv ha (by omega)]
  have h1 := Int.ediv_add_emod (needed + cpc - 1) cpc
  have h2 := Int.emod_nonneg (needed + cpc - 1) (by omega : cpc ≠ 0)
  have h3 := Int.emod_lt_of_pos (needed + cpc - 1) hc
  set X := cpc * ((needed + cpc - 1) / cpc) with hX
  set R := (needed + cpc - 1) % cpc with hR
  omega

/-- C6, amended: on a chiplet topology whose groups all have the first
group's (positive) physical-core count, for every valid requirement and
every shuffle outcome the Random strategy selects exactly
`min (ceil(needed / coresPerGroup)) (group count)` groups and its
physical selection has exactly the required size, every selected id lying
in some group of the topology. (The claim as frozen, without the
uniform-size hypothesis, is refuted by `C6_counterexample`.) -/
theorem C6_generateRandom_uniform :
    ∀ (topo : CPUTopology) (g0 : CoreGroup) (rest : List CoreGroup)
      (needed : Int) (shuffled : List Nat) (r : Request),
      topo.CoreGroups = g0 :: rest →
      0 < g0.PhysicalCPUs.length →
      (∀ g ∈ topo.CoreGroups, g.PhysicalCPUs.length = g0.PhysicalCPUs.length) →
      1 ≤ needed →
      needed ≤ (g0.PhysicalCPUs.length : Int) * topo.CoreGroups.length →
      shuffled.Perm (List.range topo.CoreGroups.length) →
      (randMinCCDs topo needed
          = min ((needed + (g0.PhysicalCPUs.length : Int) - 1).tdiv
              (g0.PhysicalCPUs.length : Int)) (topo.CoreGroups.length : Int))
      ∧ (randSelectedCCDs topo needed shuffled).length
          = (randMinCCDs topo needed).toNat
      ∧ ((randSelectedPhysical topo needed shuffled).length : Int) = needed
      ∧ (∀ x ∈ randSelectedPhysical topo needed shuffled,
          ∃ g ∈ topo.CoreGroups, x ∈ g.PhysicalCPUs)
      ∧ (generateRandom r topo needed shuffled).CCDsUsed = randMinCCDs topo needed
      ∧ (generateRandom r topo needed shuffled).CPUs
          = expandToVCPUs (randSelectedPhysical topo needed shuffled)
              r.IncludeSMT topo := by
  intro topo g0 rest needed shuffled r hg hcpc huni hneed hcap hperm
  have hcpcI : (0 : Int) < (g0.PhysicalCPUs.length : Int) := by exact_mod_cast hcpc
  have hceil := ceil_tdiv_bound needed (g0.PhysicalCPUs.length : Int) hneed hcpcI
  have hmdef : randMinCCDs topo needed =
      (if (topo.CoreGroups.length : Int)
          < (needed + (g0.PhysicalCPUs.length : Int) - 1).tdiv (g0.PhysicalCPUs.length : Int)
       then (topo.CoreGroups.length : Int)
       else (needed + (g0.PhysicalCPUs.length : Int) - 1).tdiv
         (g0.PhysicalCPUs.length : Int)) := by
    conv_lhs => rw [randMinCCDs, hg]
    simp only [← hg]
  have hmeq : randMinCCDs topo needed
      = min ((needed + (g0.PhysicalCPUs.length : Int) - 1).tdiv
          (g0.PhysicalCPUs.length : Int)) (topo.CoreGroups.length : Int) := by
    rw [hmdef]
    omega
  -- capacity of the chosen group count
  have hbound : needed ≤ (g0.PhysicalCPUs.length : Int) * randMinCCDs topo needed := by
    rw [hmeq]
    rcases le_total ((needed + (g0.PhysicalCPUs.length : Int) - 1).tdiv
        (g0.PhysicalCPUs.length : Int)) (topo.CoreGroups.length : Int) with hle | hle
    · rw [min_eq_left hle]
      exact hceil
    · rw [min_eq_right hle]
      exact hcap
  have hmpos : 1 ≤ randMinCCDs topo needed := by
    by_contra hm
    push_neg at hm
    have : (g0.PhysicalCPUs.length : Int) * randMinCCDs topo needed
        ≤ (g0.PhysicalCPUs.length : Int) * 0 :=
      mul_le_mul_of_nonneg_left (by omega) (by omega)
    simp at this
    omega
  have hmle : randMinCCDs topo needed ≤ (topo.CoreGroups.length : Int) := by
    rw [hmeq]; omega
  have hshuflen : shuffled.length = topo.CoreGroups.length := by
    rw [hperm.length_eq, List.length_range]
  have hselLen : (randSelectedCCDs topo needed shuffled).length
      = (randMinCCDs topo needed).toNat := by
    unfold randSelectedCCDs sortNats
    rw [(List.perm_insertionSort (· ≤ ·) _).length_eq, List.length_take, hshuflen]
    omega
  have hselMem : ∀ i ∈ randSelectedCCDs topo needed shuffled,
      i < topo.CoreGroups.length := by
    intro i hi
    unfold randSelectedCCDs sortNats at hi
    rw [(List.perm_insertionSort (· ≤ ·) _).mem_iff] at hi
    have := hperm.mem_iff.1 (List.mem_of_mem_take hi)
    rwa [List.mem_range] at this
  have hsizes : idxSizes topo.CoreGroups (randSelectedCCDs topo needed shuffled)
      = (randSelectedCCDs topo needed shuffled).length * g0.PhysicalCPUs.length := by
    refine idxSizes_uniform _ _ _ ?_
    intro i hi
    have hil := hselMem i hi
    rw [List.getD_eq_getElem _ _ hil]
    exact huni _ (List.getElem_mem hil)
  have hsizesI : needed ≤ (idxSizes topo.CoreGroups
      (randSelectedCCDs topo needed shuffled) : Int) := by
    have : (idxSizes topo.CoreGroups (randSelectedCCDs topo needed shuffled) : Int)
        = (g0.PhysicalCPUs.length : Int) * randMinCCDs topo needed := by
      rw [hsizes, hselLen]
      push_cast
      rw [Int.toNat_of_nonneg (by omega)]
      ring
    rw [this]
    exact hbound
  have htotal : ((randSelectedPhysical topo needed shuffled).length : Int) = needed := by
    unfold randSelectedPhysical
    rw [randTake_length]
    simp only [List.length_nil, Nat.cast_zero, Int.sub_zero, Nat.cast_add]
    push_cast
    omega
  refine ⟨hmeq, hselLen, htotal, ?_, ?_, ?_⟩
  · intro x hx
    rcases randTake_subset _ _ _ _ x hx with h1 | h1
    · simp at h1
    · exact h1
  · conv_lhs => rw [generateRandom, hg]
  · conv_lhs => rw [generateRandom, hg]

/-- Counterexample for C6 as frozen: on the skewed topology (groups of 4
and 1 physical cores, 5 total) the valid request for 4 physical cores
with the shuffle outcome `[1, 0]` (a permutation of the group indices)
selects only group 1 and returns a single CPU instead of the required
four. -/
theorem C6_counterexample :
    topoSkew.TotalCores = 5
    ∧ (4 : Int) ≤ topoSkew.TotalCores
    ∧ ([1, 0] : List Nat).Perm (List.range topoSkew.CoreGroups.length)
    ∧ randSelectedPhysical topoSkew 4 [1, 0] = [4]
    ∧ (generateRandom reqSkew topoSkew 4 [1, 0]).CPUs.length = 1
    ∧ ¬ ((generateRandom reqSkew topoSkew 4 [1, 0]).CPUs.length : Int) = 4 := by
  refine ⟨rfl, by decide, by decide, by decide, by decide, by decide⟩

/-- Witness for C6: the amended theorem applied at the even uniform
topology with shuffle outcome `[1, 0]`. -/
theorem C6_witness :
    ((randSelectedPhysical topoEven16 4 [1, 0]).length : Int) = 4 :=
  (C6_generateRandom_uniform topoEven16 ccdA [ccdB] 4 [1, 0] reqEven4 rfl
    (by decide) (by decide) (by decide) (by decide) (by decide)).2.2.1

/-! ### Claim C3: the builders partition the physical cores -/

theorem renumberGroups_map_phys (cnt : Int → Int) (l : List CoreGroup) :
    (renumberGroups cnt l).map (fun g => g.PhysicalCPUs)
      = l.map (fun g => g.PhysicalCPUs) := by
  induction l generalizing cnt with
  | nil => rfl
  | cons g gs ih =>
    simp only [renumberGroups, List.map_cons]
    rw [ih]

theorem physPartition_of_map_eq {G₁ G₂ : List CoreGroup} {cpus : List CPUInfo}
    (h : G₂.map (fun g => g.PhysicalCPUs) = G₁.map (fun g => g.PhysicalCPUs))
    (hp : PhysPartition G₁ cpus) : PhysPartition G₂ cpus := by
  obtain ⟨h1, h2, h3⟩ := hp
  refine ⟨?_, ?_, ?_⟩
  · intro g hg
    have hm : g.PhysicalCPUs ∈ G₂.map (fun g => g.PhysicalCPUs) :=
      List.mem_map_of_mem _ hg
    rw [h] at hm
    obtain ⟨g₁, hg₁, heq⟩ := List.mem_map.1 hm
    rw [← heq]
    exact h1 g₁ hg₁
  · rw [h]
    exact h2
  · intro x
    rw [← h3 x]
    constructor
    · rintro ⟨g, hg, hx⟩
      have hm : g.PhysicalCPUs ∈ G₂.map (fun g => g.PhysicalCPUs) :=
        List.mem_map_of_mem _ hg
      rw [h] at hm
      obtain ⟨g₁, hg₁, heq⟩ := List.mem_map.1 hm
      exact ⟨g₁, hg₁, by rw [heq]; exact hx⟩
    · rintro ⟨g₁, hg₁, hx⟩
      have hm : g₁.PhysicalCPUs ∈ G₁.map (fun g => g.PhysicalCPUs) :=
        List.mem_map_of_mem _ hg₁
      rw [← h] at hm
      obtain ⟨g₂, hg₂, heq⟩ := List.mem_map.1 hm
      exact ⟨g₂, hg₂, by rw [heq]; exact hx⟩

theorem physPartition_of_perm {G₁ G₂ : List CoreGroup} {cpus : List CPUInfo}
    (h : G₁.Perm G₂) (hp : PhysPartition G₁ cpus) : PhysPartition G₂ cpus := by
  obtain ⟨h1, h2, h3⟩ := hp
  refine ⟨?_, ?_, ?_⟩
  · intro g hg
    exact h1 g (h.mem_iff.2 hg)
  · refine ((h.map (fun g => g.PhysicalCPUs)).pairwise_iff ?_).1 h2
    intro a b hab x hxb hxa
    exact hab x hxa hxb
  · intro x
    constructor
    · rintro ⟨g, hg, hx⟩
      exact (h3 x).1 ⟨g, h.mem_iff.2 hg, hx⟩
    · intro hr
      obtain ⟨g, hg, hx⟩ := (h3 x).2 hr
      exact ⟨g, h.mem_iff.1 hg, hx⟩

theorem id_inj_of_nodup {cpus : List CPUInfo}
    (h : (cpus.map (fun c => c.ID)).Nodup) :
    ∀ c1 ∈ cpus, ∀ c2 ∈ cpus, c1.ID = c2.ID → c1 = c2 :=
  fun c1 h1 c2 h2 he => List.inj_on_of_nodup_map h h1 h2 he

theorem bucketFor_phys_mem {cpus : List CPUInfo} {method : String} {k : GroupKey}
    {x : Int} :
    x ∈ (bucketFor cpus method k).PhysicalCPUs
      ↔ ∃ c ∈ cpus, c.PackageID = k.pkgID ∧ ccdKeyOf method c = k.ccdID
          ∧ c.IsFirstThread = true ∧ c.ID = x := by
  simp only [bucketFor]
  rw [mem_dedupeSorted, mem_sortInts, List.mem_map]
  constructor
  · rintro ⟨c, hc, rfl⟩
    rw [List.mem_filter] at hc
    obtain ⟨hc1, hc2⟩ := hc
    rw [List.mem_filter] at hc1
    obtain ⟨hcc, hkey⟩ := hc1
    simp only [Bool.and_eq_true, beq_iff_eq] at hkey
    exact ⟨c, hcc, hkey.1, hkey.2, hc2, rfl⟩
  · rintro ⟨c, hc, h1, h2, h3, rfl⟩
    refine ⟨c, ?_, rfl⟩
    rw [List.mem_filter]
    refine ⟨?_, h3⟩
    rw [List.mem_filter]
    exact ⟨hc, by simp [h1, h2]⟩

theorem bucketFor_phys_nodup (cpus : List CPUInfo) (method : String) (k : GroupKey) :
    (bucketFor cpus method k).PhysicalCPUs.Nodup := by
  simp only [bucketFor]
  exact dedupeSorted_nodup (sortInts_sorted _)

theorem groupKeys_nodup (cpus : List CPUInfo) (method : String) :
    (groupKeys cpus method).Nodup :=
  List.nodup_dedup _

theorem mem_groupKeys {cpus : List CPUInfo} {method : String} {c : CPUInfo}
    (hc : c ∈ cpus) :
    GroupKey.mk c.PackageID (ccdKeyOf method c) ∈ groupKeys cpus method := by
  unfold groupKeys
  rw [List.mem_dedup]
  exact List.mem_map_of_mem _ hc

theorem physPartition_buckets (cpus : List CPUInfo) (method : String)
    (h : (cpus.map (fun c => c.ID)).Nodup) :
    PhysPartition ((groupKeys cpus method).map (bucketFor cpus method)) cpus := by
  refine ⟨?_, ?_, ?_⟩
  · intro g hg
    obtain ⟨k, hk, rfl⟩ := List.mem_map.1 hg
    exact bucketFor_phys_nodup cpus method k
  · rw [List.map_map, List.pairwise_map]
    refine (groupKeys_nodup cpus method).imp ?_
    intro k1 k2 hne x hx1 hx2
    obtain ⟨c1, hc1, hp1, hk1, hf1, hid1⟩ := bucketFor_phys_mem.1 hx1
    obtain ⟨c2, hc2, hp2, hk2, hf2, hid2⟩ := bucketFor_phys_mem.1 hx2
    have hceq : c1 = c2 :=
      id_inj_of_nodup h c1 hc1 c2 hc2 (hid1.trans hid2.symm)
    subst hceq
    apply hne
    cases k1
    cases k2
    dsimp only at hp1 hp2 hk1 hk2
    simp only [GroupKey.mk.injEq]
    exact ⟨hp1.symm.trans hp2, hk1.symm.trans hk2⟩
  · intro x
    constructor
    · rintro ⟨g, hg, hx⟩
      obtain ⟨k, hk, rfl⟩ := List.mem_map.1 hg
      obtain ⟨c, hc, _, _, hf, hid⟩ := bucketFor_phys_mem.1 hx
      exact ⟨c, hc, hf, hid⟩
    · rintro ⟨c, hc, hf, hid⟩
      refine ⟨bucketFor cpus method (GroupKey.mk c.PackageID (ccdKeyOf method c)),
        List.mem_map_of_mem _ (mem_groupKeys hc), ?_⟩
      exact bucketFor_phys_mem.2 ⟨c, hc, rfl, rfl, hf, hid⟩

theorem physPartition_groupByCCD (cpus : List CPUInfo) (method : String)
    (h : (cpus.map (fun c => c.ID)).Nodup) :
    PhysPartition (groupByCCD cpus method) cpus := by
  unfold groupByCCD
  refine physPartition_of_map_eq (renumberGroups_map_phys _ _) ?_
  refine physPartition_of_perm ?_ (physPartition_buckets cpus method h)
  exact (List.perm_insertionSort cgLE _).symm

theorem mem_sorted_filter_map {cpus : List CPUInfo} {p : CPUInfo → Bool} {x : Int} :
    x ∈ sortInts (((cpus.filter p).filter (fun c => c.IsFirstThread)).map (fun c => c.ID))
      ↔ ∃ c ∈ cpus, p c = true ∧ c.IsFirstThread = true ∧ c.ID = x := by
  rw [mem_sortInts, List.mem_map]
  constructor
  · rintro ⟨c, hc, rfl⟩
    rw [List.mem_filter] at hc
    obtain ⟨hc1, hf⟩ := hc
    rw [List.mem_filter] at hc1
    exact ⟨c, hc1.1, hc1.2, hf, rfl⟩
  · rintro ⟨c, hc, hp, hf, rfl⟩
    refine ⟨c, ?_, rfl⟩
    rw [List.mem_filter]
    refine ⟨?_, hf⟩
    rw [List.mem_filter]
    exact ⟨hc, hp⟩

theorem nodup_sorted_filter_map {cpus : List CPUInfo} (p : CPUInfo → Bool)
    (h : (cpus.map (fun c => c.ID)).Nodup) :
    (sortInts (((cpus.filter p).filter
      (fun c => c.IsFirstThread)).map (fun c => c.ID))).Nodup := by
  apply sortInts_nodup
  exact (((List.filter_sublist _).trans (List.filter_sublist _)).map
    (fun c : CPUInfo => c.ID)).nodup h

theorem physPartition_groupByIntelCoreType (cpus : List CPUInfo)
    (h : (cpus.map (fun c => c.ID)).Nodup) :
    PhysPartition (groupByIntelCoreType cpus) cpus := by
  have hPchar : ∀ x : Int,
      x ∈ sortInts (((intelPMembers cpus).filter
        (fun c => c.IsFirstThread)).map (fun c => c.ID))
      ↔ ∃ c ∈ cpus, intelIsPCore c = true ∧ c.IsFirstThread = true ∧ c.ID = x :=
    fun x => mem_sorted_filter_map
  have hEchar : ∀ x : Int,
      x ∈ sortInts (((intelEMembers cpus).filter
        (fun c => c.IsFirstThread)).map (fun c => c.ID))
      ↔ ∃ c ∈ cpus, (!intelIsPCore c) = true ∧ c.IsFirstThread = true ∧ c.ID = x :=
    fun x => mem_sorted_filter_map
  have hPnodup := nodup_sorted_filter_map intelIsPCore h
  have hEnodup := nodup_sorted_filter_map (fun c => !intelIsPCore c) h
  have hdisj : ∀ x ∈ sortInts (((intelPMembers cpus).filter
      (fun c => c.IsFirstThread)).map (fun c => c.ID)),
      x ∉ sortInts (((intelEMembers cpus).filter
        (fun c => c.IsFirstThread)).map (fun c => c.ID)) := by
    intro x hx1 hx2
    obtain ⟨c1, hc1, hp1, hf1, hid1⟩ := (hPchar x).1 hx1
    obtain ⟨c2, hc2, hp2, hf2, hid2⟩ := (hEchar x).1 hx2
    have hceq := id_inj_of_nodup h c1 hc1 c2 hc2 (hid1.trans hid2.symm)
    subst hceq
    rw [hp1] at hp2
    simp at hp2
  have hunion : ∀ x : Int,
      (x ∈ sortInts (((intelPMembers cpus).filter
          (fun c => c.IsFirstThread)).map (fun c => c.ID))
        ∨ x ∈ sortInts (((intelEMembers cpus).filter
          (fun c => c.IsFirstThread)).map (fun c => c.ID)))
      ↔ ∃ c ∈ cpus, c.IsFirstThread = true ∧ c.ID = x := by
    intro x
    constructor
    · rintro (hx | hx)
      · obtain ⟨c, hc, _, hf, hid⟩ := (hPchar x).1 hx
        exact ⟨c, hc, hf, hid⟩
      · obtain ⟨c, hc, _, hf, hid⟩ := (hEchar x).1 hx
        exact ⟨c, hc, hf, hid⟩
    · rintro ⟨c, hc, hf, hid⟩
      by_cases hp : intelIsPCore c = true
      · exact Or.inl ((hPchar x).2 ⟨c, hc, hp, hf, hid⟩)
      · exact Or.inr ((hEchar x).2 ⟨c, hc, by simp [hp], hf, hid⟩)
  simp only [groupByIntelCoreType]
  by_cases hP : (sortInts (((intelPMembers cpus).filter
      (fun c => c.IsFirstThread)).map (fun c => c.ID))).length > 0 <;>
    by_cases hE : (sortInts (((intelEMembers cpus).filter
      (fun c => c.IsFirstThread)).map (fun c => c.ID))).length > 0
  · rw [if_pos hP, if_pos hE]
    refine ⟨?_, ?_, ?_⟩
    · intro g hg
      rcases List.mem_append.1 hg with hg | hg <;>
        rw [List.mem_singleton] at hg <;> subst hg
      · exact hPnodup
      · exact hEnodup
    · simp only [List.map_append, List.map_cons, List.map_nil,
        List.singleton_append, List.pairwise_cons]
      refine ⟨?_, ?_⟩
      · intro b hb
        rw [List.mem_singleton] at hb
        subst hb
        exact hdisj
      · simp
    · intro x
      rw [← hunion x]
      constructor
      · rintro ⟨g, hg, hx⟩
        rcases List.mem_append.1 hg with hg | hg <;>
          rw [List.mem_singleton] at hg <;> subst hg
        · exact Or.inl hx
        · exact Or.inr hx
      · rintro (hx | hx)
        · exact ⟨_, List.mem_append.2 (Or.inl (List.mem_singleton.2 rfl)), hx⟩
        · exact ⟨_, List.mem_append.2 (Or.inr (List.mem_singleton.2 rfl)), hx⟩
  · rw [if_pos hP, if_neg hE]
    have hEempty : sortInts (((intelEMembers cpus).filter
        (fun c => c.IsFirstThread)).map (fun c => c.ID)) = [] := by
      rw [← List.length_eq_zero]
      omega
    refine ⟨?_, ?_, ?_⟩
    · intro g hg
      rcases List.mem_append.1 hg with hg | hg
      · rw [List.mem_singleton] at hg
        subst hg
        exact hPnodup
      · simp at hg
    · simp [List.pairwise_cons]
    · intro x
      rw [← hunion x]
      constructor
      · rintro ⟨g, hg, hx⟩
        rcases List.mem_append.1 hg with hg | hg
        · rw [List.mem_singleton] at hg
          subst hg
          exact Or.inl hx
        · simp at hg
      · rintro (hx | hx)
        · exact ⟨_, List.mem_append.2 (Or.inl (List.mem_singleton.2 rfl)), hx⟩
        · rw [hEempty] at hx
          simp at hx
  · rw [if_neg hP, if_pos hE]
    have hPempty : sortInts (((intelPMembers cpus).filter
        (fun c => c.IsFirstThread)).map (fun c => c.ID)) = [] := by
      rw [← List.length_eq_zero]
      omega
    refine ⟨?_, ?_, ?_⟩
    · intro g hg
      rcases List.mem_append.1 hg with hg | hg
      · simp at hg
      · rw [List.mem_singleton] at hg
        subst hg
        exact hEnodup
    · simp [List.pairwise_cons]
    · intro x
      rw [← hunion x]
      constructor
      · rintro ⟨g, hg, hx⟩
        rcases List.mem_append.1 hg with hg | hg
        · simp at hg
        · rw [List.mem_singleton] at hg
          subst hg
          exact Or.inr hx
      · rintro (hx | hx)
        · rw [hPempty] at hx
          simp at hx
        · exact ⟨_, List.mem_append.2 (Or.inr (List.mem_singleton.2 rfl)), hx⟩
  · rw [if_neg hP, if_neg hE]
    have hPempty : sortInts (((intelPMembers cpus).filter
        (fun c => c.IsFirstThread)).map (fun c => c.ID)) = [] := by
      rw [← List.length_eq_zero]
      omega
    have hEempty : sortInts (((intelEMembers cpus).filter
        (fun c => c.IsFirstThread)).map (fun c => c.ID)) = [] := by
      rw [← List.length_eq_zero]
      omega
    refine ⟨?_, ?_, ?_⟩
    · intro g hg
      simp at hg
    · simp
    · intro x
      rw [← hunion x]
      constructor
      · rintro ⟨g, hg, hx⟩
        simp at hg
      · rintro (hx | hx)
        · rw [hPempty] at hx
          simp at hx
        · rw [hEempty] at hx
          simp at hx

theorem physPartition_generic (cpus : List CPUInfo)
    (h : (cpus.map (fun c => c.ID)).Nodup) :
    PhysPartition (buildGenericTopology cpus).CoreGroups cpus := by
  simp only [buildGenericTopology]
  refine ⟨?_, ?_, ?_⟩
  · intro g hg
    rw [List.mem_singleton] at hg
    subst hg
    apply sortInts_nodup
    exact ((List.filter_sublist _).map (fun c : CPUInfo => c.ID)).nodup h
  · simp
  · intro x
    constructor
    · rintro ⟨g, hg, hx⟩
      rw [List.mem_singleton] at hg
      subst hg
      simp only at hx
      rw [mem_sortInts, List.mem_map] at hx
      obtain ⟨c, hc, rfl⟩ := hx
      rw [List.mem_filter] at hc
      exact ⟨c, hc.1, hc.2, rfl⟩
    · rintro ⟨c, hc, hf, hid⟩
      refine ⟨_, List.mem_singleton.2 rfl, ?_⟩
      simp only
      rw [mem_sortInts, List.mem_map]
      refine ⟨c, ?_, hid⟩
      rw [List.mem_filter]
      exact ⟨hc, hf⟩

/-- C3. For per-CPU record lists with pairwise-distinct logical ids (as
every detection pass produces), all three builders — AMD-style
`groupByCCD`, hybrid `groupByIntelCoreType`, and `buildGenericTopology` —
produce groups whose physical-core id lists are duplicate-free, pairwise
disjoint, and whose union is exactly the set of first-thread ids of the
input records. -/
theorem C3_builders_partition :
    ∀ (cpus : List CPUInfo) (method : String),
      (cpus.map (fun c => c.ID)).Nodup →
      PhysPartition (groupByCCD cpus method) cpus
      ∧ PhysPartition (groupByIntelCoreType cpus) cpus
      ∧ PhysPartition (buildGenericTopology cpus).CoreGroups cpus :=
  fun cpus method h =>
    ⟨physPartition_groupByCCD cpus method h,
     physPartition_groupByIntelCoreType cpus h,
     physPartition_generic cpus h⟩

/-- Witness for C3: the partition property instantiated on the sample
record list, giving concrete membership facts. -/
theorem C3_witness :
    (∃ g ∈ groupByCCD cpusSample "l3_cache", (0 : Int) ∈ g.PhysicalCPUs)
      ↔ ∃ c ∈ cpusSample, c.IsFirstThread = true ∧ c.ID = 0 :=
  ((C3_builders_partition cpusSample "l3_cache" (by decide)).1).2.2 0

/-! ### Claim C9: physical cpus versus all cpus -/

theorem mem_sortGroups {a : CoreGroup} {l : List CoreGroup} :
    a ∈ sortGroups l ↔ a ∈ l :=
  (List.perm_insertionSort cgLE l).mem_iff

theorem bucketFor_phys_subset (cpus : List CPUInfo) (method : String) (k : GroupKey) :
    ∀ x ∈ (bucketFor cpus method k).PhysicalCPUs,
      x ∈ (bucketFor cpus method k).AllCPUs := by
  intro x hx
  simp only [bucketFor] at hx ⊢
  rw [mem_dedupeSorted, mem_sortInts, List.mem_map] at hx ⊢
  obtain ⟨c, hc, rfl⟩ := hx
  rw [List.mem_filter] at hc
  exact ⟨c, hc.1, rfl⟩

theorem renumberGroups_mem {cnt : Int → Int} {l : List CoreGroup} {g : CoreGroup}
    (hg : g ∈ renumberGroups cnt l) :
    ∃ g₀ ∈ l, g.PhysicalCPUs = g₀.PhysicalCPUs ∧ g.AllCPUs = g₀.AllCPUs := by
  induction l generalizing cnt with
  | nil => simp [renumberGroups] at hg
  | cons g₀ gs ih =>
    simp only [renumberGroups, List.mem_cons] at hg
    rcases hg with rfl | hg
    · exact ⟨g₀, List.mem_cons_self _ _, rfl, rfl⟩
    · obtain ⟨g₁, hg₁, h1, h2⟩ := ih hg
      exact ⟨g₁, List.mem_cons_of_mem _ hg₁, h1, h2⟩

theorem sorted_filter_map_subset (members : List CPUInfo) :
    ∀ x ∈ sortInts ((members.filter
        (fun c => c.IsFirstThread)).map (fun c => c.ID)),
      x ∈ sortInts (members.map (fun c => c.ID)) := by
  intro x hx
  rw [mem_sortInts, List.mem_map] at hx ⊢
  obtain ⟨c, hc, rfl⟩ := hx
  exact ⟨c, (List.mem_filter.1 hc).1, rfl⟩

/-- C9, amended: for every group produced by any of the three builders,
`physical_cpus` is a subset of `all_cpus` (not in general a strict one:
on a topology without SMT the two lists coincide, see
`C9_counterexample`). -/
theorem C9_phys_subset_all :
    ∀ (cpus : List CPUInfo) (method : String),
      (∀ g ∈ groupByCCD cpus method, ∀ x ∈ g.PhysicalCPUs, x ∈ g.AllCPUs)
      ∧ (∀ g ∈ groupByIntelCoreType cpus, ∀ x ∈ g.PhysicalCPUs, x ∈ g.AllCPUs)
      ∧ (∀ g ∈ (buildGenericTopology cpus).CoreGroups,
          ∀ x ∈ g.PhysicalCPUs, x ∈ g.AllCPUs) := by
  intro cpus method
  refine ⟨?_, ?_, ?_⟩
  · intro g hg
    unfold groupByCCD at hg
    obtain ⟨g₀, hg₀, h1, h2⟩ := renumberGroups_mem hg
    rw [mem_sortGroups] at hg₀
    obtain ⟨k, hk, rfl⟩ := List.mem_map.1 hg₀
    intro x hx
    rw [h1] at hx
    rw [h2]
    exact bucketFor_phys_subset cpus method k x hx
  · intro g hg
    simp only [groupByIntelCoreType] at hg
    rcases List.mem_append.1 hg with hg | hg
    · split at hg
      · rw [List.mem_singleton] at hg
        subst hg
        exact sorted_filter_map_subset _
      · simp at hg
    · split at hg
      · rw [List.mem_singleton] at hg
        subst hg
        exact sorted_filter_map_subset _
      · simp at hg
  · intro g hg
    simp only [buildGenericTopology, List.mem_singleton] at hg
    subst hg
    exact sorted_filter_map_subset _

/-- Witness for C9: the subset property applied at a concrete group and
id of the sample topology. -/
theorem C9_witness :
    (0 : Int) ∈ ((groupByCCD cpusSample "l3_cache").getD 0 emptyCoreGroup).AllCPUs :=
  (C9_phys_subset_all cpusSample "l3_cache").1
    ((groupByCCD cpusSample "l3_cache").getD 0 emptyCoreGroup)
    (by decide) 0 (by decide)

/-- Counterexample for C9 as frozen: the generic topology built from one
single-threaded record has a group whose physical-cpu list equals its
all-cpu list, so `physical_cpus` is not a strict subset of `all_cpus`. -/
theorem C9_counterexample :
    (buildGenericTopology [cpuSolo]).CoreGroups.length = 1
    ∧ (buildGenericTopology [cpuSolo]).CoreGroups.all
        (fun g => g.PhysicalCPUs == g.AllCPUs) = true
    ∧ ¬ ∀ g ∈ (buildGenericTopology [cpuSolo]).CoreGroups,
        ∃ y ∈ g.AllCPUs, y ∉ g.PhysicalCPUs := by
  refine ⟨by decide, by decide, ?_⟩
  intro hstrict
  have h1 := hstrict ((buildGenericTopology [cpuSolo]).CoreGroups.getD 0 emptyCoreGroup)
    (by decide)
  revert h1
  decide

/-! ### Claim C8: detection-method priority and group renumbering -/

theorem renumberGroups_map_pkg (cnt : Int → Int) (l : List CoreGroup) :
    (renumberGroups cnt l).map (fun g => g.PackageID)
      = l.map (fun g => g.PackageID) := by
  induction l generalizing cnt with
  | nil => rfl
  | cons g gs ih =>
    simp only [renumberGroups, List.map_cons]
    rw [ih]

theorem renumberGroups_filter_map_id (cnt : Int → Int) (l : List CoreGroup) (p : Int) :
    ((renumberGroups cnt l).filter (fun g => g.PackageID == p)).map (fun g => g.ID)
      = (List.range ((l.filter (fun g => g.PackageID == p)).length)).map
          (fun n : Nat => cnt p + (n : Int)) := by
  induction l generalizing cnt with
  | nil => simp [renumberGroups]
  | cons g gs ih =>
    simp only [renumberGroups]
    by_cases hp : g.PackageID = p
    · rw [List.filter_cons_of_pos (by simp [hp]),
        List.filter_cons_of_pos (by simp [hp])]
      simp only [List.map_cons, List.length_cons]
      rw [ih, List.range_succ_eq_map]
      simp only [List.map_cons, List.map_map]
      refine congrArg₂ List.cons ?_ ?_
      · show cnt g.PackageID = cnt p + ((0 : Nat) : Int)
        rw [hp]
        simp
      · refine List.map_congr_left ?_
        intro n _
        simp only [Function.comp_apply]
        rw [show p = g.PackageID from hp.symm]
        simp only [if_pos rfl]
        push_cast
        ring
    · rw [List.filter_cons_of_neg (by simp [hp]),
        List.filter_cons_of_neg (by simp [hp])]
      rw [ih]
      refine List.map_congr_left ?_
      intro n _
      have hne : ¬ p = g.PackageID := fun h => hp h.symm
      simp only [if_neg hne]

/-- C8. `detectCCDMethod` picks its signal first-applicable-wins: L3, then
cluster, then die, then positional inference by `core_id div 8`; and
`groupByCCD` sorts the buckets by (package id, key) and renumbers them
sequentially from 0 within each package. (The method-selection clauses are
stated for non-empty record lists; detection never reaches this function
with zero CPUs.) -/
theorem C8_detect_method_renumber :
    (∀ cpus : List CPUInfo, cpus ≠ [] →
      (((∀ c ∈ cpus, 0 ≤ c.L3CacheID)
          ∧ 2 ≤ ((cpus.map (fun c => c.L3CacheID)).dedup).length) →
        detectCCDMethod cpus = "l3_cache")
      ∧ (¬ ((∀ c ∈ cpus, 0 ≤ c.L3CacheID)
          ∧ 2 ≤ ((cpus.map (fun c => c.L3CacheID)).dedup).length) →
        (∀ c ∈ cpus, 0 ≤ c.ClusterID) →
        detectCCDMethod cpus = "cluster_id")
      ∧ (¬ ((∀ c ∈ cpus, 0 ≤ c.L3CacheID)
          ∧ 2 ≤ ((cpus.map (fun c => c.L3CacheID)).dedup).length) →
        ¬ (∀ c ∈ cpus, 0 ≤ c.ClusterID) →
        (∀ c ∈ cpus, 0 ≤ c.DieID) →
        detectCCDMethod cpus = "die_id")
      ∧ (¬ ((∀ c ∈ cpus, 0 ≤ c.L3CacheID)
          ∧ 2 ≤ ((cpus.map (fun c => c.L3CacheID)).dedup).length) →
        ¬ (∀ c ∈ cpus, 0 ≤ c.ClusterID) →
        ¬ (∀ c ∈ cpus, 0 ≤ c.DieID) →
        detectCCDMethod cpus = "inferred"))
    ∧ (∀ (c : CPUInfo) (method : String),
        method ≠ "l3_cache" → method ≠ "cluster_id" → method ≠ "die_id" →
        ccdKeyOf method c = c.CoreID.tdiv 8)
    ∧ (∀ (cpus : List CPUInfo) (method : String),
        List.Pairwise cgLE
          (sortGroups ((groupKeys cpus method).map (bucketFor cpus method)))
        ∧ (groupByCCD cpus method).map (fun g => g.PackageID)
            = (sortGroups ((groupKeys cpus method).map
                (bucketFor cpus method))).map (fun g => g.PackageID)
        ∧ List.Pairwise (· ≤ ·)
            ((groupByCCD cpus method).map (fun g => g.PackageID))
        ∧ ∀ p : Int,
            ((groupByCCD cpus method).filter
                (fun g => g.PackageID == p)).map (fun g => g.ID)
              = (List.range (((groupByCCD cpus method).filter
                  (fun g => g.PackageID == p)).length)).map
                    (fun n : Nat => (n : Int))) := by
  refine ⟨?_, ?_, ?_⟩
  · intro cpus hne
    have hlen : ¬ cpus.length = 0 := by
      simpa [List.length_eq_zero] using hne
    have hcond1 : ((cpus.all fun c => decide (0 ≤ c.L3CacheID)) &&
        decide (((cpus.map fun c => c.L3CacheID).dedup).length > 1)) = true
        ↔ ((∀ c ∈ cpus, 0 ≤ c.L3CacheID)
            ∧ 2 ≤ ((cpus.map (fun c => c.L3CacheID)).dedup).length) := by
      rw [Bool.and_eq_true, List.all_eq_true]
      simp only [decide_eq_true_eq]
      constructor
      · rintro ⟨h1, h2⟩
        exact ⟨h1, by omega⟩
      · rintro ⟨h1, h2⟩
        exact ⟨h1, by omega⟩
    have hcond2 : (cpus.all fun c => decide (0 ≤ c.ClusterID)) = true
        ↔ ∀ c ∈ cpus, 0 ≤ c.ClusterID := by
      rw [List.all_eq_true]
      simp only [decide_eq_true_eq]
    have hcond3 : (cpus.all fun c => decide (0 ≤ c.DieID)) = true
        ↔ ∀ c ∈ cpus, 0 ≤ c.DieID := by
      rw [List.all_eq_true]
      simp only [decide_eq_true_eq]
    refine ⟨?_, ?_, ?_, ?_⟩
    · intro hA
      simp only [detectCCDMethod, if_neg hlen]
      rw [if_pos (hcond1.2 hA)]
    · intro hA hB
      simp only [detectCCDMethod, if_neg hlen]
      rw [if_neg (fun hc => hA (hcond1.1 hc)), if_pos (hcond2.2 hB)]
    · intro hA hB hC
      simp only [detectCCDMethod, if_neg hlen]
      rw [if_neg (fun hc => hA (hcond1.1 hc)),
        if_neg (fun hc => hB (hcond2.1 hc)), if_pos (hcond3.2 hC)]
    · intro hA hB hC
      simp only [detectCCDMethod, if_neg hlen]
      rw [if_neg (fun hc => hA (hcond1.1 hc)),
        if_neg (fun hc => hB (hcond2.1 hc)),
        if_neg (fun hc => hC (hcond3.1 hc))]
  · intro c method h1 h2 h3
    simp only [ccdKeyOf, if_neg h1, if_neg h2, if_neg h3]
    rfl
  · intro cpus method
    have hsorted : List.Pairwise cgLE
        (sortGroups ((groupKeys cpus method).map (bucketFor cpus method))) :=
      List.sorted_insertionSort cgLE _
    have hpkg : (groupByCCD cpus method).map (fun g => g.PackageID)
        = (sortGroups ((groupKeys cpus method).map
            (bucketFor cpus method))).map (fun g => g.PackageID) := by
      unfold groupByCCD
      exact renumberGroups_map_pkg _ _
    refine ⟨hsorted, hpkg, ?_, ?_⟩
    · rw [hpkg]
      rw [List.pairwise_map]
      refine hsorted.imp ?_
      intro a b hab
      unfold cgLE at hab
      omega
    · intro p
      have h0 : ((groupByCCD cpus method).filter
            (fun g => g.PackageID == p)).map (fun g => g.ID)
          = (List.range (((sortGroups ((groupKeys cpus method).map
              (bucketFor cpus method))).filter
                (fun g => g.PackageID == p)).length)).map
                  (fun n : Nat => (0 : Int) + (n : Int)) := by
        unfold groupByCCD
        exact renumberGroups_filter_map_id (fun _ => 0) _ p
      have hn : ((groupByCCD cpus method).filter
          (fun g => g.PackageID == p)).length
          = ((sortGroups ((groupKeys cpus method).map
              (bucketFor cpus method))).filter
                (fun g => g.PackageID == p)).length := by
        have hlen := congrArg List.length h0
        rw [List.length_map, List.length_map, List.length_range] at hlen
        exact hlen
      rw [h0, ← hn]
      refine List.map_congr_left ?_
      intro n _
      omega

/-- Witness for C8: the L3 clause applied at the sample records. -/
theorem C8_witness : detectCCDMethod cpusSample = "l3_cache" :=
  ((C8_detect_method_renumber.1 cpusSample (by decide)).1) (by decide)

/-! ### Claim C7: failure semantics of the per-CPU reads -/

theorem readOptionalInt_error {r : Except GoError Int} {d : Int} {e : GoError} :
    readOptionalInt r d = .error e ↔ readFailure r = some e := by
  unfold readOptionalInt readFailure
  cases r with
  | ok v => simp
  | error e' =>
    by_cases he : e' = GoError.notExist <;> simp [he]

theorem readOptionalInt_ok_val {r : Except GoError Int} {d v : Int}
    (h : readOptionalInt r d = .ok v) :
    readFailure r = none ∧ v = valueOrDefault r d := by
  unfold readOptionalInt at h
  unfold readFailure valueOrDefault
  cases r with
  | ok w =>
    simp at h
    simp [h]
  | error e' =>
    by_cases he : e' = GoError.notExist <;> simp [he] at h ⊢
    exact h.symm

theorem readOptionalList_error {r : Except GoError (List Int)} {d : List Int}
    {e : GoError} :
    readOptionalList r d = .error e ↔ readFailureL r = some e := by
  unfold readOptionalList readFailureL
  cases r with
  | ok v => simp
  | error e' =>
    by_cases he : e' = GoError.notExist <;> simp [he]

theorem readOptionalList_ok_val {r : Except GoError (List Int)} {d v : List Int}
    (h : readOptionalList r d = .ok v) :
    readFailureL r = none ∧ v = valueOrDefaultL r d := by
  unfold readOptionalList at h
  unfold readFailureL valueOrDefaultL
  cases r with
  | ok w =>
    simp at h
    simp [h]
  | error e' =>
    by_cases he : e' = GoError.notExist <;> simp [he] at h ⊢
    exact h.symm

theorem readCPUInfo_error_iff (fs : SysFS) (cpu : Int) (e : GoError) :
    readCPUInfo fs cpu = .error e ↔ firstTopoError fs cpu = some e := by
  unfold readCPUInfo firstTopoError
  cases h1 : readOptionalInt (fs.topoFile cpu "physical_package_id") 0 with
  | error e1 =>
    rw [readOptionalInt_error.1 h1]
    simp
  | ok v1 =>
    obtain ⟨hn1, _⟩ := readOptionalInt_ok_val h1
    rw [hn1]
    cases h2 : readOptionalInt (fs.topoFile cpu "core_id") cpu with
    | error e2 =>
      rw [readOptionalInt_error.1 h2]
      simp
    | ok v2 =>
      obtain ⟨hn2, _⟩ := readOptionalInt_ok_val h2
      rw [hn2]
      cases h3 : readOptionalInt (fs.topoFile cpu "cluster_id") (-1) with
      | error e3 =>
        rw [readOptionalInt_error.1 h3]
        simp
      | ok v3 =>
        obtain ⟨hn3, _⟩ := readOptionalInt_ok_val h3
        rw [hn3]
        cases h4 : readOptionalInt (fs.topoFile cpu "die_id") (-1) with
        | error e4 =>
          rw [readOptionalInt_error.1 h4]
          simp
        | ok v4 =>
          obtain ⟨hn4, _⟩ := readOptionalInt_ok_val h4
          rw [hn4]
          cases h5 : readOptionalList (fs.siblingsFile cpu) [cpu] with
          | error e5 =>
            rw [readOptionalList_error.1 h5]
            simp
          | ok v5 =>
            obtain ⟨hn5, _⟩ := readOptionalList_ok_val h5
            rw [hn5]
            simp

theorem readCPUInfo_ok_of_no_failure (fs : SysFS) (cpu : Int)
    (h : firstTopoError fs cpu = none) :
    readCPUInfo fs cpu = .ok
      { ID := cpu
        PackageID := valueOrDefault (fs.topoFile cpu "physical_package_id") 0
        CoreID := valueOrDefault (fs.topoFile cpu "core_id") cpu
        ClusterID := valueOrDefault (fs.topoFile cpu "cluster_id") (-1)
        DieID := valueOrDefault (fs.topoFile cpu "die_id") (-1)
        L3CacheID := (ReadL3CacheID fs cpu).1
        ThreadSiblings := dedupeSorted (sortInts
          (valueOrDefaultL (fs.siblingsFile cpu) [cpu]))
        IsFirstThread :=
          ((dedupeSorted (sortInts
            (valueOrDefaultL (fs.siblingsFile cpu) [cpu]))).length == 0)
          || (cpu == (dedupeSorted (sortInts
            (valueOrDefaultL (fs.siblingsFile cpu) [cpu]))).headD cpu)
        CoreType := detectCoreType cpu (readCPUCapacity fs cpu)
          (dedupeSorted (sortInts (valueOrDefaultL (fs.siblingsFile cpu) [cpu])))
        Capacity := readCPUCapacity fs cpu } := by
  unfold firstTopoError at h
  unfold readCPUInfo
  cases h1 : readOptionalInt (fs.topoFile cpu "physical_package_id") 0 with
  | error e1 =>
    rw [readOptionalInt_error.1 h1] at h
    simp at h
  | ok v1 =>
    obtain ⟨hn1, hv1⟩ := readOptionalInt_ok_val h1
    rw [hn1] at h
    cases h2 : readOptionalInt (fs.topoFile cpu "core_id") cpu with
    | error e2 =>
      rw [readOptionalInt_error.1 h2] at h
      simp at h
    | ok v2 =>
      obtain ⟨hn2, hv2⟩ := readOptionalInt_ok_val h2
      rw [hn2] at h
      cases h3 : readOptionalInt (fs.topoFile cpu "cluster_id") (-1) with
      | error e3 =>
        rw [readOptionalInt_error.1 h3] at h
        simp at h
      | ok v3 =>
        obtain ⟨hn3, hv3⟩ := readOptionalInt_ok_val h3
        rw [hn3] at h
        cases h4 : readOptionalInt (fs.topoFile cpu "die_id") (-1) with
        | error e4 =>
          rw [readOptionalInt_error.1 h4] at h
          simp at h
        | ok v4 =>
          obtain ⟨hn4, hv4⟩ := readOptionalInt_ok_val h4
          rw [hn4] at h
          cases h5 : readOptionalList (fs.siblingsFile cpu) [cpu] with
          | error e5 =>
            rw [readOptionalList_error.1 h5] at h
            simp at h
          | ok v5 =>
            obtain ⟨hn5, hv5⟩ := readOptionalList_ok_val h5
            subst hv1
            subst hv2
            subst hv3
            subst hv4
            subst hv5
            rfl

/-- C7, amended: a permission-denied failure reading the package id, core
id, cluster id, die id, or thread-sibling list of a CPU aborts detection
with that error propagated unchanged; a not-exist failure on those five
attributes substitutes the documented default; any other failure on them
also aborts (wrapped as topology-unavailable) rather than defaulting; and
the L3-cache reads never abort `readCPUInfo` — its error outcome is fully
determined by the five topology-attribute reads. (The claim as frozen is
refuted by `C7_counterexample`: a permission failure on the L3-cache id
read is swallowed.) -/
theorem C7_read_failure_semantics :
    (∀ (fs : SysFS) (cpu : Int) (e : GoError),
      readCPUInfo fs cpu = .error e ↔ firstTopoError fs cpu = some e)
    ∧ (∀ (fs : SysFS) (cpu : Int) (rest : List Int),
        firstTopoError fs cpu = some GoError.permission →
        detectReadCPUs fs (cpu :: rest) = .error GoError.permission)
    ∧ (∀ (fs : SysFS) (cpu : Int) (rest : List Int) (e : GoError),
        firstTopoError fs cpu = some e → e ≠ GoError.permission →
        detectReadCPUs fs (cpu :: rest) = .error (GoError.topoUnavailable e))
    ∧ (∀ (fs : SysFS) (cpu : Int),
        firstTopoError fs cpu = none →
        readCPUInfo fs cpu = .ok
          { ID := cpu
            PackageID := valueOrDefault (fs.topoFile cpu "physical_package_id") 0
            CoreID := valueOrDefault (fs.topoFile cpu "core_id") cpu
            ClusterID := valueOrDefault (fs.topoFile cpu "cluster_id") (-1)
            DieID := valueOrDefault (fs.topoFile cpu "die_id") (-1)
            L3CacheID := (ReadL3CacheID fs cpu).1
            ThreadSiblings := dedupeSorted (sortInts
              (valueOrDefaultL (fs.siblingsFile cpu) [cpu]))
            IsFirstThread :=
              ((dedupeSorted (sortInts
                (valueOrDefaultL (fs.siblingsFile cpu) [cpu]))).length == 0)
              || (cpu == (dedupeSorted (sortInts
                (valueOrDefaultL (fs.siblingsFile cpu) [cpu]))).headD cpu)
            CoreType := detectCoreType cpu (readCPUCapacity fs cpu)
              (dedupeSorted (sortInts (valueOrDefaultL (fs.siblingsFile cpu) [cpu])))
            Capacity := readCPUCapacity fs cpu }) := by
  refine ⟨readCPUInfo_error_iff, ?_, ?_, readCPUInfo_ok_of_no_failure⟩
  · intro fs cpu rest h
    have he : readCPUInfo fs cpu = .error GoError.permission :=
      (readCPUInfo_error_iff fs cpu _).2 h
    unfold detectReadCPUs
    rw [he]
    simp
  · intro fs cpu rest e h hne
    have he : readCPUInfo fs cpu = .error e :=
      (readCPUInfo_error_iff fs cpu _).2 h
    unfold detectReadCPUs
    rw [he]
    simp [hne]

/-- A filesystem model on which every topology attribute reads fine but
the L3-cache id file is permission-denied. -/
def fsPermL3 : SysFS :=
  { topoFile := fun _ _ => .ok 0
    siblingsFile := fun cpu => .ok [cpu]
    cacheDirs := fun _ => .ok [3]
    cacheLevel := fun _ _ => .ok 3
    cacheID := fun _ _ => .error GoError.permission
    capacityFile := fun _ => .error GoError.notExist }

/-- A filesystem model on which reading the package id is
permission-denied. -/
def fsPermPkg : SysFS :=
  { topoFile := fun _ elem =>
      if elem = "physical_package_id" then .error GoError.permission else .ok 0
    siblingsFile := fun cpu => .ok [cpu]
    cacheDirs := fun _ => .ok [3]
    cacheLevel := fun _ _ => .ok 3
    cacheID := fun _ _ => .ok 0
    capacityFile := fun _ => .ok 0 }

/-- Counterexample for C7 as frozen: a permission-denied error reading an
L3-cache entry does not abort detection — the per-CPU read succeeds (with
the error's zero-value 0 recorded as the L3 id) and the read loop returns
records, contradicting "aborts detection and is propagated unchanged" for
the L3-cache attribute. -/
theorem C7_counterexample :
    fsPermL3.cacheID 0 3 = .error GoError.permission
    ∧ (ReadL3CacheID fsPermL3 0).2 = some GoError.permission
    ∧ detectReadCPUs fsPermL3 [0] = .ok
        [{ ID := 0, PackageID := 0, CoreID := 0, ClusterID := 0, DieID := 0,
           L3CacheID := 0, ThreadSiblings := [0], IsFirstThread := true,
           CoreType := CoreType.unknown, Capacity := 0 }] :=
  ⟨rfl, rfl, rfl⟩

/-- Witness for C7: permission denied on the package-id read propagates
unchanged out of the detection read loop. -/
theorem C7_witness :
    detectReadCPUs fsPermPkg [0] = .error GoError.permission :=
  C7_read_failure_semantics.2.1 fsPermPkg 0 [] rfl
